import Mathlib

/-!
Verification of the ferrumdb core against its specification.

This file shallowly embeds the parts of the ferrumdb source that the
claims under study concern:

* the RESP2 streaming parser and encoder (`src/protocol/resp.rs`),
* the RESP value type (`src/protocol/types.rs`),
* the in-memory store, entries and values (`src/store/*.rs`),
* the counter, list, set and string commands (`src/commands/*.rs`),
* the AOF entry codec (`src/aof/entry.rs`),
* the cluster manager routing and the shard dispatcher
  (`src/cluster/mod.rs`, `src/cluster/shard.rs`).

Modelling conventions:

* `bytes::Bytes` byte strings are `List Nat` (each element a byte value);
* Rust `String` values are carried as their UTF-8 byte lists, with
  `validUtf8` modelling `std::str::from_utf8`'s validity check;
* `i64` values are `Int`; where the source performs checked `i64`
  arithmetic the embedding checks the `i64` range explicitly
  (`checkedI64`); `as usize` casts are `mod 2^64` (`intToUsize`);
* `std::time::Instant` is a `Nat` counting nanoseconds; every store
  operation that the source implements with `Instant::now()` takes the
  current instant `now` as an explicit argument;
* mutation is modelled by explicit state passing: a Rust method on
  `&mut self` becomes a Lean function returning the new state.
-/

/-- Byte strings (`bytes::Bytes` / `Vec<u8>` / `&[u8]`). -/
abbrev ByteStr := List Nat

/-- UTF-8 bytes of a Lean string literal; used to embed Rust string
literals (error messages, command names) as byte lists. -/
def strBytes (s : String) : ByteStr :=
  s.data.map Char.toNat

/-- Fuel-indexed core of the `str::from_utf8` validity check.  The fuel
only serves Lean's structural recursion; every decoding step consumes at
least one byte, so fuel equal to the buffer length (as used by
`validUtf8`) never runs out. -/
def validUtf8F : Nat → List Nat → Bool
  | _, [] => true
  | 0, _ :: _ => false
  | fuel + 1, b :: rest =>
    if b < 0x80 then validUtf8F fuel rest
    else if 0xC2 ≤ b ∧ b ≤ 0xDF then
      match rest with
      | c :: rest2 => (0x80 ≤ c && c ≤ 0xBF) && validUtf8F fuel rest2
      | [] => false
    else if b = 0xE0 then
      match rest with
      | c1 :: c2 :: rest2 =>
        (0xA0 ≤ c1 && c1 ≤ 0xBF) && (0x80 ≤ c2 && c2 ≤ 0xBF) && validUtf8F fuel rest2
      | _ => false
    else if (0xE1 ≤ b ∧ b ≤ 0xEC) ∨ b = 0xEE ∨ b = 0xEF then
      match rest with
      | c1 :: c2 :: rest2 =>
        (0x80 ≤ c1 && c1 ≤ 0xBF) && (0x80 ≤ c2 && c2 ≤ 0xBF) && validUtf8F fuel rest2
      | _ => false
    else if b = 0xED then
      match rest with
      | c1 :: c2 :: rest2 =>
        (0x80 ≤ c1 && c1 ≤ 0x9F) && (0x80 ≤ c2 && c2 ≤ 0xBF) && validUtf8F fuel rest2
      | _ => false
    else if b = 0xF0 then
      match rest with
      | c1 :: c2 :: c3 :: rest2 =>
        (0x90 ≤ c1 && c1 ≤ 0xBF) && (0x80 ≤ c2 && c2 ≤ 0xBF) &&
          (0x80 ≤ c3 && c3 ≤ 0xBF) && validUtf8F fuel rest2
      | _ => false
    else if 0xF1 ≤ b ∧ b ≤ 0xF3 then
      match rest with
      | c1 :: c2 :: c3 :: rest2 =>
        (0x80 ≤ c1 && c1 ≤ 0xBF) && (0x80 ≤ c2 && c2 ≤ 0xBF) &&
          (0x80 ≤ c3 && c3 ≤ 0xBF) && validUtf8F fuel rest2
      | _ => false
    else if b = 0xF4 then
      match rest with
      | c1 :: c2 :: c3 :: rest2 =>
        (0x80 ≤ c1 && c1 ≤ 0x8F) && (0x80 ≤ c2 && c2 ≤ 0xBF) &&
          (0x80 ≤ c3 && c3 ≤ 0xBF) && validUtf8F fuel rest2
      | _ => false
    else false

/-- Rust `str::from_utf8` validity check on a byte list: standard UTF-8
well-formedness (no overlong forms, no surrogates, max U+10FFFF), which is
exactly what `std::str::from_utf8` accepts. -/
def validUtf8 (l : List Nat) : Bool := validUtf8F l.length l

/-- Decimal digit value of an ASCII byte (`char::to_digit` style helper for
modelling Rust's integer parsing). -/
def digitVal (b : Nat) : Option Nat :=
  if 48 ≤ b ∧ b ≤ 57 then some (b - 48) else none

/-- Accumulating loop of decimal parsing. -/
def parseDigitsAux : List Nat → Nat → Option Nat
  | [], acc => some acc
  | b :: rest, acc =>
    match digitVal b with
    | some d => parseDigitsAux rest (acc * 10 + d)
    | none => none

/-- Parse a non-empty all-digit byte list as a natural number. -/
def parseDigits : List Nat → Option Nat
  | [] => none
  | bs => parseDigitsAux bs 0

/-- Rust `str::parse::<i64>()` on the UTF-8 bytes of the string: an
optional single `+` or `-` sign followed by one or more ASCII digits,
with the value required to fit in `i64`. -/
def rustParseI64 (bs : List Nat) : Option Int :=
  match bs with
  | [] => none
  | b :: rest =>
    if b = 43 then
      match parseDigits rest with
      | some n => if n < 2 ^ 63 then some (n : Int) else none
      | none => none
    else if b = 45 then
      match parseDigits rest with
      | some n => if n ≤ 2 ^ 63 then some (-(n : Int)) else none
      | none => none
    else
      match parseDigits (b :: rest) with
      | some n => if n < 2 ^ 63 then some (n : Int) else none
      | none => none

/-- Least-significant-first ASCII digits of `n`; the fuel only serves
structural recursion and never runs out when it starts at `n`. -/
def natToDigitsRev : Nat → Nat → List Nat
  | _, 0 => []
  | 0, _ + 1 => []
  | fuel + 1, n + 1 => ((n + 1) % 10 + 48) :: natToDigitsRev fuel ((n + 1) / 10)

/-- ASCII decimal rendering of a natural number (Rust `usize::to_string`,
and the non-negative case of `i64::to_string`). -/
def natToDecimal (n : Nat) : List Nat :=
  if n = 0 then [48] else (natToDigitsRev n n).reverse

/-- ASCII decimal rendering of an integer (Rust `i64::to_string`). -/
def intToDecimal (i : Int) : List Nat :=
  if i < 0 then 45 :: natToDecimal (-i).toNat else natToDecimal i.toNat

/-! ## RESP2 value type (`src/protocol/types.rs`) -/

/-- `RespValue` from `src/protocol/types.rs`.  `SimpleString` and `Error`
hold Rust `String`s, embedded as their UTF-8 byte lists; `BulkString`
holds `Bytes`; `Integer` holds an `i64`. -/
inductive RespValue where
  | simpleString (s : ByteStr)
  | errorMsg (s : ByteStr)
  | integer (i : Int)
  | bulkString (b : ByteStr)
  | null
  | array (elems : List RespValue)

/-- `RespError` from `src/protocol/types.rs` (the `IoError` variant is
never produced by the parser and is omitted). -/
inductive RespError where
  | incomplete
  | invalidProtocol (msg : String)
  | invalidUtf8
  | integerOverflow
deriving DecidableEq

/-- Result of one `RespParser::parse` call.  The Rust signature is
`Result<Option<RespValue>, RespError>` on a mutable buffer; the embedding
carries the buffer state explicitly: `complete v rest` is
`Ok(Some(v))` with the buffer advanced to `rest`, and `incomplete rest`
is `Ok(None)` with the buffer left as `rest`. -/
inductive ParseOutcome where
  | complete (v : RespValue) (rest : List Nat)
  | incomplete (rest : List Nat)

/-! ## RESP2 parser helpers (`src/protocol/resp.rs`) -/

/-- No `\r\n` (CRLF) pair occurs in the byte list.  Used to reason about
`RespParser::peek_line`. -/
def crlfFree : List Nat → Bool
  | [] => true
  | [_] => true
  | a :: b :: rest => !(a == 13 && b == 10) && crlfFree (b :: rest)

/-- `RespParser::peek_line`: find the first CRLF and return the bytes
before it, without consuming anything; `none` when no CRLF is present.
(The source's scan `for i in 0..buf.len()-1` would underflow on an empty
buffer, but is never reached with one because `parse` checks emptiness
first; the embedding returns `none` there.) -/
def peekLine : List Nat → Option (List Nat)
  | [] => none
  | [_] => none
  | a :: b :: rest =>
    if a = 13 ∧ b = 10 then some []
    else (peekLine (b :: rest)).map (a :: ·)

/-- `RespParser::read_line`: like `peek_line` but also consumes the line
and its CRLF; returns the line and the remaining buffer. -/
def readLine (buf : List Nat) : Option (List Nat × List Nat) :=
  match peekLine buf with
  | some line => some (line, buf.drop (line.length + 2))
  | none => none

/-! ## RESP2 encoder (`src/protocol/resp.rs`, `RespEncoder::encode_to`) -/

mutual
/-- `RespEncoder::encode_to`, as the byte list appended for one value:
simple strings/errors/integers as `<prefix><payload>\r\n`, bulk strings
length-prefixed, `Null` as `$-1\r\n`, arrays as `*<count>\r\n` followed
by the encodings of the elements. -/
def respEncode : RespValue → List Nat
  | .simpleString s => 43 :: (s ++ [13, 10])
  | .errorMsg s => 45 :: (s ++ [13, 10])
  | .integer i => 58 :: (intToDecimal i ++ [13, 10])
  | .bulkString b => 36 :: (natToDecimal b.length ++ [13, 10] ++ b ++ [13, 10])
  | .null => [36, 45, 49, 13, 10]
  | .array elems => 42 :: (natToDecimal elems.length ++ [13, 10] ++ respEncodeList elems)

/-- Concatenated encodings of a list of values (the `for elem in arr`
loop of `encode_to`). -/
def respEncodeList : List RespValue → List Nat
  | [] => []
  | v :: rest => respEncode v ++ respEncodeList rest
end

/-! ## RESP2 parser (`src/protocol/resp.rs`, `RespParser`) -/

/-- `RespParser::parse_simple_string`. -/
def parseSimpleString (buf : List Nat) : Except RespError ParseOutcome :=
  match readLine buf with
  | some (line, rest) =>
    if validUtf8 (line.drop 1) then
      .ok (.complete (.simpleString (line.drop 1)) rest)
    else .error .invalidUtf8
  | none => .ok (.incomplete buf)

/-- `RespParser::parse_error`. -/
def parseErrorFrame (buf : List Nat) : Except RespError ParseOutcome :=
  match readLine buf with
  | some (line, rest) =>
    if validUtf8 (line.drop 1) then
      .ok (.complete (.errorMsg (line.drop 1)) rest)
    else .error .invalidUtf8
  | none => .ok (.incomplete buf)

/-- `RespParser::parse_integer`. -/
def parseInteger (buf : List Nat) : Except RespError ParseOutcome :=
  match readLine buf with
  | some (line, rest) =>
    if validUtf8 (line.drop 1) then
      match rustParseI64 (line.drop 1) with
      | some i => .ok (.complete (.integer i) rest)
      | none => .error .integerOverflow
    else .error .invalidUtf8
  | none => .ok (.incomplete buf)

/-- Buffer state after `Self::read_line(buf)?` in the source when the
`Option` result is discarded: the line is consumed when present, and the
buffer is untouched otherwise (the latter never happens on the paths
that use this, since `peek_line` has already succeeded). -/
def consumeLine (buf : List Nat) : List Nat :=
  match readLine buf with
  | some (_, rest) => rest
  | none => buf

/-- `RespParser::parse_bulk_string`. -/
def parseBulkString (buf : List Nat) : Except RespError ParseOutcome :=
  match peekLine buf with
  | some line =>
    if validUtf8 (line.drop 1) then
      match rustParseI64 (line.drop 1) with
      | some len =>
        if len = -1 then
          .ok (.complete .null (consumeLine buf))
        else if len < 0 then
          .error (.invalidProtocol "Invalid bulk string length")
        else
          let totalLen := line.length + 2 + len.toNat + 2
          if buf.length < totalLen then
            .ok (.incomplete buf)
          else
            let rest1 := consumeLine buf
            let data := rest1.take len.toNat
            let rest2 := rest1.drop len.toNat
            if rest2.length < 2 ∨ rest2.take 2 ≠ [13, 10] then
              .error (.invalidProtocol "Missing CRLF after bulk string data")
            else
              .ok (.complete (.bulkString data) (rest2.drop 2))
      | none => .error .integerOverflow
    else .error .invalidUtf8
  | none => .ok (.incomplete buf)

/-- The `for _ in 0..count` probe loop of `RespParser::parse_array` over
the cloned buffer: parse `n` elements with the parser `p`, collecting
them; `.ok none` when some element is incomplete ("not enough data
yet"). -/
def parseElems (p : List Nat → Except RespError ParseOutcome) :
    Nat → List Nat → Except RespError (Option (List RespValue × List Nat))
  | 0, b => .ok (some ([], b))
  | n + 1, b =>
    match p b with
    | .error e => .error e
    | .ok (.incomplete _) => .ok none
    | .ok (.complete v b2) =>
      match parseElems p n b2 with
      | .error e => .error e
      | .ok none => .ok none
      | .ok (some (vs, r)) => .ok (some (v :: vs, r))

/-- The commit loop of `RespParser::parse_array` over the real buffer:
`Self::parse(buf)?` executed `n` times with the `Ok` payload discarded. -/
def commitElems (p : List Nat → Except RespError ParseOutcome) :
    Nat → List Nat → Except RespError (List Nat)
  | 0, b => .ok b
  | n + 1, b =>
    match p b with
    | .error e => .error e
    | .ok (.complete _ b2) => commitElems p n b2
    | .ok (.incomplete b2) => commitElems p n b2

/-- `RespParser::parse_array`, parameterised by the parser `p` used for
the recursive `Self::parse` calls. -/
def parseArray (p : List Nat → Except RespError ParseOutcome)
    (buf : List Nat) : Except RespError ParseOutcome :=
  match peekLine buf with
  | some line =>
    if validUtf8 (line.drop 1) then
      match rustParseI64 (line.drop 1) with
      | some count =>
        if count = -1 then
          .ok (.complete .null (consumeLine buf))
        else if count < 0 then
          .error (.invalidProtocol "Invalid array count")
        else
          match parseElems p count.toNat (consumeLine buf) with
          | .error e => .error e
          | .ok none => .ok (.incomplete buf)
          | .ok (some (elements, _)) =>
            match commitElems p count.toNat (consumeLine buf) with
            | .error e => .error e
            | .ok rest => .ok (.complete (.array elements) rest)
      | none => .error .integerOverflow
    else .error .invalidUtf8
  | none => .ok (.incomplete buf)

/-- Fuel-indexed `RespParser::parse`.  The fuel only serves Lean's
termination checker: the Rust recursion terminates because every nested
`parse` call operates on a strictly shorter buffer, and `RespParser.parse`
below supplies fuel that can never run out.  Exhausted fuel reports
`incomplete` with the untouched buffer. -/
def parseF : Nat → List Nat → Except RespError ParseOutcome
  | 0, buf => .ok (.incomplete buf)
  | fuel + 1, buf =>
    match buf with
    | [] => .ok (.incomplete [])
    | b :: _ =>
      if b = 43 then parseSimpleString buf
      else if b = 45 then parseErrorFrame buf
      else if b = 58 then parseInteger buf
      else if b = 36 then parseBulkString buf
      else if b = 42 then parseArray (parseF fuel) buf
      else .error (.invalidProtocol "Unknown type prefix")

/-- `RespParser::parse` on a buffer: runs `parseF` with fuel larger than
the buffer length, which dominates the nesting depth of any frame the
buffer can hold. -/
def RespParser.parse (buf : List Nat) : Except RespError ParseOutcome :=
  parseF (buf.length + 1) buf

/-! ## Well-formedness and depth of RESP values -/

mutual
/-- Well-formedness of a `RespValue` as a value of the Rust type within
the domain of the round-trip property: `String` payloads are valid UTF-8
(guaranteed by the Rust `String` type) and contain no CRLF pair,
integers are `i64` values, bulk strings are at most 1 MiB long, and
array lengths fit in `i64` (guaranteed by `usize`/allocation limits). -/
def wfResp : RespValue → Bool
  | .simpleString s => validUtf8 s && crlfFree s
  | .errorMsg s => validUtf8 s && crlfFree s
  | .integer i => decide (-(2 ^ 63) ≤ i) && decide (i < 2 ^ 63)
  | .bulkString b => decide (b.length ≤ 1048576)
  | .null => true
  | .array elems => decide (elems.length < 2 ^ 63) && wfRespAll elems

/-- `wfResp` for every element of a list. -/
def wfRespAll : List RespValue → Bool
  | [] => true
  | v :: rest => wfResp v && wfRespAll rest
end

mutual
/-- Array-nesting depth of a RESP value (non-array frames have depth 0). -/
def respDepth : RespValue → Nat
  | .simpleString _ => 0
  | .errorMsg _ => 0
  | .integer _ => 0
  | .bulkString _ => 0
  | .null => 0
  | .array elems => respDepthList elems + 1

/-- Maximum depth over a list of RESP values. -/
def respDepthList : List RespValue → Nat
  | [] => 0
  | v :: rest => max (respDepth v) (respDepthList rest)
end

/-! ## Store values (`src/store/value.rs`) -/

/-- `Value` from `src/store/value.rs`.  `List` models `VecDeque<Bytes>`
front-to-back; `Set` models `HashSet<Bytes>` as a duplicate-free list in
insertion order (the source's iteration order is not observable in any
claim under study); `Hash` models `HashMap<Bytes, Bytes>` likewise. -/
inductive Value where
  | string (b : ByteStr)
  | integer (i : Int)
  | list (xs : List ByteStr)
  | set (s : List ByteStr)
  | hash (h : List (ByteStr × ByteStr))
deriving DecidableEq

/-- `Value::as_list` / `as_list_mut` (the `&mut` access is modelled by
reading here and writing back through `MemoryStore.updateValue`). -/
def Value.asList : Value → Option (List ByteStr)
  | .list xs => some xs
  | _ => none

/-- `Value::as_set` / `as_set_mut`. -/
def Value.asSet : Value → Option (List ByteStr)
  | .set s => some s
  | _ => none

/-! ## Store entries (`src/store/entry.rs`) -/

/-- `Entry` from `src/store/entry.rs`; `expire_at: Option<Instant>` is an
optional absolute instant in nanoseconds. -/
structure Entry where
  key : ByteStr
  value : Value
  expireAt : Option Nat
  version : Nat
deriving DecidableEq

/-- `Entry::new`: no expiration, version 0. -/
def Entry.new (key : ByteStr) (value : Value) : Entry :=
  ⟨key, value, none, 0⟩

/-- `Entry::is_expired`: `Instant::now() >= expire_at`. -/
def Entry.isExpired (now : Nat) (e : Entry) : Bool :=
  match e.expireAt with
  | some t => t ≤ now
  | none => false

/-- `Entry::ttl_seconds`: remaining whole seconds when the expiry is in
the future, `-2` when already due, `-1` when no expiry is set. -/
def Entry.ttlSeconds (now : Nat) (e : Entry) : Int :=
  match e.expireAt with
  | some t => if now < t then ((t - now) / 1000000000 : Nat) else -2
  | none => -1

/-! ## In-memory store (`src/store/memory.rs`)

The `HashMap<Bytes, Entry>` is modelled as a duplicate-free association
list; the claims under study never observe iteration order.  Every
operation that the source implements with `Instant::now()` takes `now`
explicitly, and `&mut self` methods return the new store. -/

/-- `HashMap::get` on the association list. -/
def findEntry : List (ByteStr × Entry) → ByteStr → Option Entry
  | [], _ => none
  | (k2, e) :: rest, k => if k2 = k then some e else findEntry rest k

/-- `HashMap::insert`: replace in place or add. -/
def insertEntry : List (ByteStr × Entry) → ByteStr → Entry → List (ByteStr × Entry)
  | [], k, e => [(k, e)]
  | (k2, e2) :: rest, k, e =>
    if k2 = k then (k2, e) :: rest else (k2, e2) :: insertEntry rest k e

/-- `HashMap::remove`. -/
def removeEntry : List (ByteStr × Entry) → ByteStr → List (ByteStr × Entry)
  | [], _ => []
  | (k2, e2) :: rest, k => if k2 = k then rest else (k2, e2) :: removeEntry rest k

/-- Overwrite the value stored under `k`, keeping the rest of the entry
(key, expiration, version): the write through the `&mut Value` returned
by `MemoryStore::get_mut`. -/
def setValueAt : List (ByteStr × Entry) → ByteStr → Value → List (ByteStr × Entry)
  | [], _, _ => []
  | (k2, e2) :: rest, k, v =>
    if k2 = k then (k2, { e2 with value := v }) :: rest
    else (k2, e2) :: setValueAt rest k v

/-- `MemoryStore` from `src/store/memory.rs`. -/
structure MemoryStore where
  store : List (ByteStr × Entry)
  totalKeys : Nat
  expiredKeys : Nat
deriving DecidableEq

/-- `MemoryStore::set`: insert or overwrite with a fresh entry (no
expiration); returns whether the key was new and bumps `total_keys` on a
new key. -/
def MemoryStore.set (st : MemoryStore) (key : ByteStr) (value : Value) :
    Bool × MemoryStore :=
  let isNew := (findEntry st.store key).isNone
  (isNew,
   { st with
     store := insertEntry st.store key (Entry.new key value)
     totalKeys := if isNew then st.totalKeys + 1 else st.totalKeys })

/-- `MemoryStore::get`: evicts a lazily-expired entry and reports
absence; otherwise returns the value. -/
def MemoryStore.get (st : MemoryStore) (key : ByteStr) (now : Nat) :
    Option Value × MemoryStore :=
  let isExp :=
    match findEntry st.store key with
    | some e => e.isExpired now
    | none => false
  if isExp then
    (none, { st with store := removeEntry st.store key,
                     expiredKeys := st.expiredKeys + 1 })
  else ((findEntry st.store key).map Entry.value, st)

/-- `MemoryStore::get_mut`: same eviction-on-expiry as `get`; the caller
writes back through `MemoryStore.updateValue`. -/
def MemoryStore.getMut (st : MemoryStore) (key : ByteStr) (now : Nat) :
    Option Value × MemoryStore :=
  match findEntry st.store key with
  | some e =>
    if e.isExpired now then
      (none, { st with store := removeEntry st.store key,
                       expiredKeys := st.expiredKeys + 1 })
    else (some e.value, st)
  | none => (none, st)

/-- The write through the `&mut Value` obtained from `get_mut`. -/
def MemoryStore.updateValue (st : MemoryStore) (key : ByteStr) (v : Value) :
    MemoryStore :=
  { st with store := setValueAt st.store key v }

/-- `MemoryStore::ttl`: `-2` when absent or expired (evicting in the
latter case), otherwise `Entry::ttl_seconds`. -/
def MemoryStore.ttl (st : MemoryStore) (key : ByteStr) (now : Nat) :
    Int × MemoryStore :=
  match findEntry st.store key with
  | some e =>
    if e.isExpired now then
      (-2, { st with store := removeEntry st.store key,
                     expiredKeys := st.expiredKeys + 1 })
    else (e.ttlSeconds now, st)
  | none => (-2, st)

/-! ## Command helpers (`src/commands/mod.rs`) -/

/-- `RespValue::error(...)` applied to a Rust string literal. -/
def respError (msg : String) : RespValue :=
  .errorMsg (strBytes msg)

/-- Whether a response is a RESP Error frame. -/
def RespValue.isErr : RespValue → Bool
  | .errorMsg _ => true
  | _ => false

/-- `extract_bulk_string` from `src/commands/mod.rs`. -/
def extractBulkString : RespValue → Except String ByteStr
  | .bulkString b => .ok b
  | _ => .error "Expected bulk string"

/-- `extract_integer` from `src/commands/mod.rs`: an `Integer` frame, or
a bulk string parsed as decimal `i64`. -/
def extractInteger : RespValue → Except String Int
  | .integer i => .ok i
  | .bulkString b =>
    if validUtf8 b then
      match rustParseI64 b with
      | some i => .ok i
      | none => .error "Invalid integer"
    else .error "Invalid UTF-8"
  | _ => .error "Expected integer or bulk string"

/-- `i64::checked_add` / `checked_sub` on the exact result: `some` when
the value fits in `i64`, `none` on overflow. -/
def checkedI64 (x : Int) : Option Int :=
  if -(2 ^ 63) ≤ x ∧ x < 2 ^ 63 then some x else none

/-- The WRONGTYPE error every typed command uses. -/
def wrongTypeErr : RespValue :=
  respError "WRONGTYPE Operation against a key holding the wrong kind of value"

/-! ## Counter commands (`src/commands/counter.rs`)

`INCR`, `INCRBY`, `DECR`, `DECRBY` repeat one block verbatim, differing
only in the amount applied, the missing-key initializer expression and
the overflow message; `counterStep` is that shared block (`checked_sub d`
is `checkedI64 (i - d)`, i.e. `checkedI64 (i + delta)` with
`delta = -d`; `checked_sub`/`checked_add` test the exact mathematical
result against the `i64` range, so `delta` is the exact amount).  The
missing-key initializer is a separate argument `init` because `DECRBY`
computes it with an *unchecked* `i64` negation `-decrement`, which is
not the exact negation at `decrement = i64::MIN` (see `wrapI64`).
`log_to_aof` (reached by `INCR` on success) writes to the append-only
file and never touches the store, so it has no effect on the modelled
state. -/

/-- Two's-complement wrapping into the `i64` range: the value an
unchecked Rust `i64` operation stores in a release build.  (A debug
build panics instead of wrapping; either way the exact mathematical
value is not produced once it leaves the `i64` range.) -/
def wrapI64 (x : Int) : Int := (x + 2 ^ 63) % 2 ^ 64 - 2 ^ 63

def counterStep (st : MemoryStore) (now : Nat) (key : ByteStr) (delta init : Int)
    (overflowMsg : String) : RespValue × MemoryStore :=
  match MemoryStore.getMut st key now with
  | (some v, st1) =>
    match v with
    | .integer i =>
      match checkedI64 (i + delta) with
      | some nv => (RespValue.integer nv, MemoryStore.updateValue st1 key (.integer nv))
      | none => (respError overflowMsg, st1)
    | .string b =>
      if validUtf8 b then
        match rustParseI64 b with
        | some i =>
          match checkedI64 (i + delta) with
          | some nv => (RespValue.integer nv, MemoryStore.updateValue st1 key (.integer nv))
          | none => (respError overflowMsg, st1)
        | none => (respError "ERR value is not an integer or out of range", st1)
      else (respError "ERR value is not an integer or out of range", st1)
    | _ => (wrongTypeErr, st1)
  | (none, st1) =>
    (RespValue.integer init, (MemoryStore.set st1 key (.integer init)).2)

/-- `IncrCommand::execute`. -/
def incrExecute (st : MemoryStore) (now : Nat) (args : List RespValue) :
    RespValue × MemoryStore :=
  match args with
  | [] => (respError "ERR wrong number of arguments for 'INCR' command", st)
  | a0 :: _ =>
    match extractBulkString a0 with
    | .error e => (respError ("ERR " ++ e), st)
    | .ok key => counterStep st now key 1 1 "ERR increment would overflow"

/-- `IncrByCommand::execute`. -/
def incrByExecute (st : MemoryStore) (now : Nat) (args : List RespValue) :
    RespValue × MemoryStore :=
  match args with
  | a0 :: a1 :: _ =>
    match extractBulkString a0 with
    | .error e => (respError ("ERR " ++ e), st)
    | .ok key =>
      match extractInteger a1 with
      | .error e => (respError ("ERR " ++ e), st)
      | .ok increment =>
        counterStep st now key increment increment "ERR increment would overflow"
  | _ => (respError "ERR wrong number of arguments for 'INCRBY' command", st)

/-- `DecrCommand::execute`. -/
def decrExecute (st : MemoryStore) (now : Nat) (args : List RespValue) :
    RespValue × MemoryStore :=
  match args with
  | [] => (respError "ERR wrong number of arguments for 'DECR' command", st)
  | a0 :: _ =>
    match extractBulkString a0 with
    | .error e => (respError ("ERR " ++ e), st)
    | .ok key => counterStep st now key (-1) (-1) "ERR decrement would overflow"

/-- `DecrByCommand::execute`.  The missing-key initializer `-decrement`
in the source is an *unchecked* `i64` negation: at
`decrement = i64::MIN` it wraps to `i64::MIN` in a release build (a
debug build panics), so the stored value is `wrapI64 (-decrement)`, not
the exact negation.  The `checked_sub(decrement)` of the update paths
tests the exact difference against the `i64` range, so the `delta`
argument is the exact `-decrement`. -/
def decrByExecute (st : MemoryStore) (now : Nat) (args : List RespValue) :
    RespValue × MemoryStore :=
  match args with
  | a0 :: a1 :: _ =>
    match extractBulkString a0 with
    | .error e => (respError ("ERR " ++ e), st)
    | .ok key =>
      match extractInteger a1 with
      | .error e => (respError ("ERR " ++ e), st)
      | .ok decrement =>
        counterStep st now key (-decrement) (wrapI64 (-decrement))
          "ERR decrement would overflow"
  | _ => (respError "ERR wrong number of arguments for 'DECRBY' command", st)

/-! ## List commands (`src/commands/list.rs`) -/

/-- The `for i in 1..args.len()` push loop of `LPushCommand::execute`:
values pushed so far stay pushed (they went through the `&mut` list
reference) even when a later argument fails to extract. -/
def lpushLoop : List RespValue → List ByteStr → Option String × List ByteStr
  | [], l => (none, l)
  | a :: rest, l =>
    match extractBulkString a with
    | .ok v => lpushLoop rest (v :: l)
    | .error e => (some e, l)

/-- `LPushCommand::execute`. -/
def lpushExecute (st : MemoryStore) (now : Nat) (args : List RespValue) :
    RespValue × MemoryStore :=
  match args with
  | a0 :: a1 :: rest =>
    match extractBulkString a0 with
    | .error e => (respError ("ERR " ++ e), st)
    | .ok key =>
      match MemoryStore.getMut st key now with
      | (some v, st1) =>
        match v.asList with
        | some l =>
          match lpushLoop (a1 :: rest) l with
          | (some e, l2) =>
            (respError ("ERR " ++ e), MemoryStore.updateValue st1 key (.list l2))
          | (none, l2) =>
            (RespValue.integer l2.length, MemoryStore.updateValue st1 key (.list l2))
        | none => (wrongTypeErr, st1)
      | (none, st1) =>
        -- key absent: create an empty list, then push through `get_mut`
        let st2 := (MemoryStore.set st1 key (.list [])).2
        match lpushLoop (a1 :: rest) [] with
        | (some e, l2) =>
          (respError ("ERR " ++ e), MemoryStore.updateValue st2 key (.list l2))
        | (none, l2) =>
          (RespValue.integer l2.length, MemoryStore.updateValue st2 key (.list l2))
  | _ => (respError "ERR wrong number of arguments for 'LPUSH' command", st)

/-- Rust `as usize` on an `i64`: wraps modulo `2^64`. -/
def intToUsize (x : Int) : Nat := (x % (2 ^ 64 : Int)).toNat

/-- The index arithmetic and extraction loop of `LRangeCommand::execute`
on a list already fetched from the store. -/
def lrangeSlice (l : List ByteStr) (start stop : Int) : List ByteStr :=
  let len : Int := l.length
  let startIdx : Nat :=
    if start < 0 then intToUsize (max (len + start) 0) else intToUsize (min start len)
  let stopIdx : Nat :=
    if stop < 0 then intToUsize (max (len + stop) (-1)) else intToUsize (min stop (len - 1))
  if startIdx ≤ stopIdx ∧ startIdx < l.length then
    (List.range' startIdx (min stopIdx (l.length - 1) + 1 - startIdx)).filterMap
      (fun i => l.get? i)
  else []

/-- `LRangeCommand::execute`. -/
def lrangeExecute (st : MemoryStore) (now : Nat) (args : List RespValue) :
    RespValue × MemoryStore :=
  match args with
  | a0 :: a1 :: a2 :: _ =>
    match extractBulkString a0 with
    | .error e => (respError ("ERR " ++ e), st)
    | .ok key =>
      match extractInteger a1 with
      | .error e => (respError ("ERR " ++ e), st)
      | .ok start =>
        match extractInteger a2 with
        | .error e => (respError ("ERR " ++ e), st)
        | .ok stop =>
          match MemoryStore.get st key now with
          | (some v, st1) =>
            match v.asList with
            | some l =>
              (RespValue.array ((lrangeSlice l start stop).map RespValue.bulkString), st1)
            | none => (wrongTypeErr, st1)
          | (none, st1) => (RespValue.array [], st1)
  | _ => (respError "ERR wrong number of arguments for 'LRANGE' command", st)

/-- Modelled from the spec: the inclusive range with negative indices
interpreted relative to the list length, both bounds clamped to the
list, and an empty result when start exceeds stop after clamping. -/
def lrangeSpec (l : List ByteStr) (start stop : Int) : List ByteStr :=
  let len : Int := l.length
  let s1 := if start < 0 then len + start else start
  let t1 := if stop < 0 then len + stop else stop
  let s2 := max s1 0
  let t2 := min t1 (len - 1)
  if s2 ≤ t2 then (l.drop s2.toNat).take (t2 - s2 + 1).toNat else []

/-! ## Set commands (`src/commands/set.rs`) -/

/-- The member-insertion loop of `SAddCommand::execute`
(`HashSet::insert` returns whether the member was new). -/
def saddLoop : List RespValue → List ByteStr → Nat → Option String × List ByteStr × Nat
  | [], s, added => (none, s, added)
  | a :: rest, s, added =>
    match extractBulkString a with
    | .ok m =>
      if m ∈ s then saddLoop rest s added else saddLoop rest (s ++ [m]) (added + 1)
    | .error e => (some e, s, added)

/-- `SAddCommand::execute`. -/
def saddExecute (st : MemoryStore) (now : Nat) (args : List RespValue) :
    RespValue × MemoryStore :=
  match args with
  | a0 :: a1 :: rest =>
    match extractBulkString a0 with
    | .error e => (respError ("ERR " ++ e), st)
    | .ok key =>
      match MemoryStore.getMut st key now with
      | (some v, st1) =>
        match v.asSet with
        | some s =>
          match saddLoop (a1 :: rest) s 0 with
          | (some e, s2, _) =>
            (respError ("ERR " ++ e), MemoryStore.updateValue st1 key (.set s2))
          | (none, s2, added) =>
            (RespValue.integer added, MemoryStore.updateValue st1 key (.set s2))
        | none => (wrongTypeErr, st1)
      | (none, st1) =>
        let st2 := (MemoryStore.set st1 key (.set [])).2
        match saddLoop (a1 :: rest) [] 0 with
        | (some e, s2, _) =>
          (respError ("ERR " ++ e), MemoryStore.updateValue st2 key (.set s2))
        | (none, s2, added) =>
          (RespValue.integer added, MemoryStore.updateValue st2 key (.set s2))
  | _ => (respError "ERR wrong number of arguments for 'SADD' command", st)

/-! ## String commands (`src/commands/string.rs`) -/

/-- `SetCommand::execute` (`log_to_aof` writes only to the AOF file, not
to the store). -/
def setExecute (st : MemoryStore) (now : Nat) (args : List RespValue) :
    RespValue × MemoryStore :=
  match args with
  | a0 :: a1 :: _ =>
    match extractBulkString a0 with
    | .error e => (respError ("ERR " ++ e), st)
    | .ok key =>
      match extractBulkString a1 with
      | .error e => (respError ("ERR " ++ e), st)
      | .ok value =>
        (RespValue.simpleString (strBytes "OK"), (MemoryStore.set st key (.string value)).2)
  | _ => (respError "ERR wrong number of arguments for 'SET' command", st)

/-! ## AOF entry codec (`src/aof/entry.rs`)

The source computes an xxhash64 checksum through the external
`xxhash_rust` crate; the embedding abstracts that external function as a
parameter `chk`.  None of the claims under study depend on the hash
function's value — the theorems hold for every `chk`, in particular for
xxhash64. -/

/-- `AofOperation` from `src/aof/entry.rs`. -/
inductive AofOperation where
  | set
  | del
  | expire
  | hset
  | hdel
  | lpush
  | rpush
  | sadd
  | incr
  | incrby
deriving DecidableEq

/-- The `#[repr(u8)]` discriminants (SET=1 … INCRBY=10). -/
def AofOperation.toU8 : AofOperation → Nat
  | .set => 1
  | .del => 2
  | .expire => 3
  | .hset => 4
  | .hdel => 5
  | .lpush => 6
  | .rpush => 7
  | .sadd => 8
  | .incr => 9
  | .incrby => 10

/-- `AofOperation::from_u8`. -/
def AofOperation.fromU8 : Nat → Option AofOperation
  | 1 => some .set
  | 2 => some .del
  | 3 => some .expire
  | 4 => some .hset
  | 5 => some .hdel
  | 6 => some .lpush
  | 7 => some .rpush
  | 8 => some .sadd
  | 9 => some .incr
  | 10 => some .incrby
  | _ => none

/-- `AofEntry` from `src/aof/entry.rs`. -/
structure AofEntry where
  op : AofOperation
  timestamp : Nat
  key : ByteStr
  payload : List ByteStr
deriving DecidableEq

/-- `k`-byte little-endian encoding (`u32`/`u64::to_le_bytes`). -/
def leBytes : Nat → Nat → List Nat
  | 0, _ => []
  | k + 1, n => n % 256 :: leBytes k (n / 256)

/-- `u32`/`u64::from_le_bytes` on the first `k` bytes of the list. -/
def leRead : Nat → List Nat → Nat
  | 0, _ => 0
  | _ + 1, [] => 0
  | k + 1, b :: rest => b % 256 + 256 * leRead k rest

/-- The per-item payload serialization loop of `AofEntry::to_bytes`:
4-byte length followed by the bytes, for each item. -/
def payloadBytes : List ByteStr → List Nat
  | [] => []
  | p :: rest => leBytes 4 p.length ++ p ++ payloadBytes rest

/-- `AofEntry::to_bytes`: op tag, timestamp, length-prefixed key,
payload count, payload items, and trailing 8-byte checksum over all
preceding bytes. -/
def AofEntry.toBytes (chk : List Nat → Nat) (e : AofEntry) : List Nat :=
  let body := e.op.toU8 ::
    (leBytes 8 e.timestamp ++ leBytes 4 e.key.length ++ e.key ++
      leBytes 4 e.payload.length ++ payloadBytes e.payload)
  body ++ leBytes 8 (chk body)

/-- The payload-reading loop of `AofEntry::from_bytes`; returns the
items and the cursor after them. -/
def readPayloads (data : List Nat) : Nat → Nat → Except String (List ByteStr × Nat)
  | 0, pos => .ok ([], pos)
  | c + 1, pos =>
    if pos + 4 > data.length then .error "Missing payload length"
    else
      let itemLen := leRead 4 (data.drop pos)
      if pos + 4 + itemLen > data.length then .error "Invalid payload item length"
      else
        match readPayloads data c (pos + 4 + itemLen) with
        | .ok (ps, p3) => .ok (((data.drop (pos + 4)).take itemLen) :: ps, p3)
        | .error e => .error e

/-- `AofEntry::from_bytes` with checksum verification; returns the entry
and the number of bytes consumed. -/
def AofEntry.fromBytes (chk : List Nat → Nat) (data : List Nat) :
    Except String (AofEntry × Nat) :=
  if data.length < 17 then .error "Insufficient data"
  else
    match AofOperation.fromU8 (data.headD 0) with
    | none => .error "Invalid operation type"
    | some op =>
      let timestamp := leRead 8 (data.drop 1)
      let keyLen := leRead 4 (data.drop 9)
      if 13 + keyLen > data.length then .error "Invalid key length"
      else
        let key := (data.drop 13).take keyLen
        if 13 + keyLen + 4 > data.length then .error "Missing payload count"
        else
          let payloadCount := leRead 4 (data.drop (13 + keyLen))
          match readPayloads data payloadCount (13 + keyLen + 4) with
          | .error e => .error e
          | .ok (payload, pos2) =>
            if pos2 + 8 > data.length then .error "Missing checksum"
            else
              let stored := leRead 8 (data.drop pos2)
              let calculated := chk (data.take pos2)
              if stored ≠ calculated then .error "Checksum mismatch"
              else .ok (⟨op, timestamp, key, payload⟩, pos2 + 8)

/-! ## Cluster manager and shard dispatcher
(`src/cluster/mod.rs`, `src/cluster/shard.rs`)

The router's SipHash-1-3 (external `siphasher` crate) is abstracted as a
parameter `routeKey`; the command registry (whose lookup is
case-insensitive) is abstracted as a parameter `reg`.  The claims under
study never reach either.  `CommandContext` is its store — the AOF
writer never affects the store.  `str::to_uppercase` is modelled on
ASCII letters; the command names compared against (`INFO`, `FLUSHDB`,
`PING`) are ASCII, and no claim under study evaluates the comparison. -/

/-- ASCII model of `str::to_uppercase` on UTF-8 bytes. -/
def asciiUpper (b : ByteStr) : ByteStr :=
  b.map (fun c => if 97 ≤ c ∧ c ≤ 122 then c - 32 else c)

/-- `ClusterManager::extract_key_and_route`: `None` for frames without a
routable key (the caller then uses shard 0). -/
def extractKeyAndRoute (routeKey : ByteStr → Nat) (command : RespValue) : Option Nat :=
  match command with
  | .array (p0 :: p1 :: _) =>
    match p0 with
    | .bulkString b =>
      if validUtf8 b then
        if asciiUpper b = strBytes "INFO" ∨ asciiUpper b = strBytes "FLUSHDB" ∨
            asciiUpper b = strBytes "PING" then none
        else
          match p1 with
          | .bulkString key => some (routeKey key)
          | _ => none
      else none
    | _ => none
  | .array _ => none
  | _ => none

/-- `Shard::dispatch_command` from `src/cluster/shard.rs`: validates the
frame shape and command name, then looks the command up in the registry
and executes it.  (This — not `Dispatcher::dispatch` from
`src/dispatch/mod.rs` — is the dispatcher the cluster path uses.) -/
def dispatchCommand
    (reg : ByteStr → Option (MemoryStore → List RespValue → RespValue × MemoryStore))
    (ctx : MemoryStore) (command : RespValue) : RespValue × MemoryStore :=
  match command with
  | .array (first :: restParts) =>
    match first with
    | .bulkString name =>
      if validUtf8 name then
        match reg name with
        | some cmd => cmd ctx restParts
        | none =>
          (.errorMsg (strBytes "ERR unknown command '" ++ name ++ strBytes "'"), ctx)
      else (respError "ERR invalid command name encoding", ctx)
    | _ => (respError "ERR command name must be a bulk string", ctx)
  | _ => (respError "ERR invalid command format", ctx)

/-- Observable outcome of `ClusterManager::execute`: the reply to the
caller, the target shard's store afterwards, and which shard the frame
was enqueued on (`none` would mean the frame was never dispatched — the
source has no such path; the field makes the claim's "rather than
dispatching" statable). -/
structure ClusterResult where
  response : RespValue
  ctx : MemoryStore
  sentToShard : Option Nat

/-- `ClusterManager::execute`: route (shard 0 when no key is
extractable), enqueue on the target shard, and reply with whatever the
shard's dispatcher produced.  The channel-failure replies
(`ERR internal error` / `ERR shard did not respond`) are concurrency
failures outside this sequential model. -/
def ClusterManager.execute (routeKey : ByteStr → Nat)
    (reg : ByteStr → Option (MemoryStore → List RespValue → RespValue × MemoryStore))
    (ctx : MemoryStore) (command : RespValue) : ClusterResult :=
  let shardId := (extractKeyAndRoute routeKey command).getD 0
  let rc := dispatchCommand reg ctx command
  ⟨rc.1, rc.2, some shardId⟩

/-- Frames in the scope of claim C4: not an array, an empty array, or an
array whose first element is not a bulk string. -/
def frameHeadInvalid : RespValue → Bool
  | .array (.bulkString _ :: _) => false
  | _ => true

theorem validUtf8F_of_ascii :
    ∀ (fuel : Nat) (l : List Nat), (∀ b ∈ l, b < 128) → l.length ≤ fuel →
      validUtf8F fuel l = true := by
  intro fuel
  induction fuel with
  | zero =>
    intro l _ hlen
    cases l with
    | nil => rfl
    | cons b rest => simp at hlen
  | succ fuel ih =>
    intro l h hlen
    cases l with
    | nil => rfl
    | cons b rest =>
      have hb : b < 128 := h b (List.mem_cons_self b rest)
      rw [show validUtf8F (fuel + 1) (b :: rest) = validUtf8F fuel rest by
        conv_lhs => rw [validUtf8F.eq_def]
        simp [hb]]
      exact ih rest (fun x hx => h x (List.mem_cons_of_mem b hx))
        (by simpa using Nat.le_of_succ_le_succ hlen)

/-- Pure-ASCII byte lists are valid UTF-8. -/
theorem validUtf8_of_ascii (l : List Nat) (h : ∀ b ∈ l, b < 128) : validUtf8 l = true :=
  validUtf8F_of_ascii l.length l h le_rfl

theorem natToDigitsRev_eq_digits :
    ∀ (fuel n : Nat), n ≤ fuel → natToDigitsRev fuel n = (Nat.digits 10 n).map (· + 48) := by
  intro fuel
  induction fuel with
  | zero =>
    intro n hn
    interval_cases n
    simp [natToDigitsRev, Nat.digits_zero]
  | succ fuel ih =>
    intro n hn
    cases n with
    | zero => simp [natToDigitsRev, Nat.digits_zero]
    | succ m =>
      rw [natToDigitsRev, Nat.digits_def' (by norm_num : 1 < 10) (Nat.succ_pos m),
        List.map_cons]
      congr 1
      exact ih ((m + 1) / 10) (by
        have := Nat.div_lt_self (Nat.succ_pos m) (by norm_num : 1 < 10)
        omega)

/-- `natToDecimal` agrees with the mathematical decimal digits. -/
theorem natToDecimal_eq (n : Nat) :
    natToDecimal n = if n = 0 then [48] else ((Nat.digits 10 n).map (· + 48)).reverse := by
  unfold natToDecimal
  by_cases h0 : n = 0
  · simp [h0]
  · rw [if_neg h0, if_neg h0, natToDigitsRev_eq_digits n n le_rfl]

theorem natToDecimal_digits : ∀ n, ∀ b ∈ natToDecimal n, 48 ≤ b ∧ b ≤ 57 := by
  intro n b hb
  rw [natToDecimal_eq] at hb
  by_cases h0 : n = 0
  · simp [h0] at hb
    omega
  · simp [h0, List.mem_reverse, List.mem_map] at hb
    obtain ⟨d, hd, rfl⟩ := hb
    have := Nat.digits_lt_base (by norm_num) hd
    omega

theorem natToDecimal_ne_nil (n : Nat) : natToDecimal n ≠ [] := by
  rw [natToDecimal_eq]
  by_cases h0 : n = 0
  · simp [h0]
  · simp [h0, Nat.digits_eq_nil_iff_eq_zero]

theorem parseDigitsAux_map : ∀ (L : List Nat) (acc : Nat), (∀ d ∈ L, d < 10) →
    parseDigitsAux (L.map (· + 48)) acc = some (L.foldl (fun a d => a * 10 + d) acc) := by
  intro L
  induction L with
  | nil => intro acc _; rfl
  | cons d rest ih =>
    intro acc h
    have hd : d < 10 := h d (List.mem_cons_self d rest)
    have : digitVal (d + 48) = some d := by
      unfold digitVal
      rw [if_pos (by omega), Nat.add_sub_cancel]
    simp only [List.map_cons, parseDigitsAux, this]
    exact ih (acc * 10 + d) (fun x hx => h x (List.mem_cons_of_mem d hx))

theorem foldl_reverse_ofDigits : ∀ (L : List Nat) (acc : Nat),
    L.reverse.foldl (fun a d => a * 10 + d) acc = acc * 10 ^ L.length + Nat.ofDigits 10 L := by
  intro L
  induction L with
  | nil => intro acc; simp [Nat.ofDigits]
  | cons d rest ih =>
    intro acc
    simp only [List.reverse_cons, List.foldl_append, List.foldl_cons, List.foldl_nil, ih,
      Nat.ofDigits_cons, List.length_cons, pow_succ]
    ring

theorem parseDigits_natToDecimal (n : Nat) : parseDigits (natToDecimal n) = some n := by
  rw [natToDecimal_eq]
  by_cases h0 : n = 0
  · simp [h0, parseDigits, parseDigitsAux, digitVal]
  · rw [if_neg h0]
    have hnil : ((Nat.digits 10 n).map (· + 48)).reverse ≠ [] := by
      simp [Nat.digits_eq_nil_iff_eq_zero, h0]
    have hrw : ((Nat.digits 10 n).map (· + 48)).reverse = (Nat.digits 10 n).reverse.map (· + 48) := by
      simp [List.map_reverse]
    unfold parseDigits
    split
    · exact absurd (by assumption) hnil
    · rw [hrw, parseDigitsAux_map _ 0 (by
        intro d hd
        exact Nat.digits_lt_base (by norm_num) (List.mem_reverse.mp hd)),
        foldl_reverse_ofDigits]
      simp [Nat.ofDigits_digits]

theorem natToDecimal_head : ∀ n, ∃ d rest, natToDecimal n = d :: rest ∧ 48 ≤ d ∧ d ≤ 57 := by
  intro n
  cases h : natToDecimal n with
  | nil => exact absurd h (natToDecimal_ne_nil n)
  | cons d rest =>
    refine ⟨d, rest, rfl, ?_, ?_⟩ <;>
      { have := natToDecimal_digits n d (by rw [h]; exact List.mem_cons_self d rest); omega }

/-- `rustParseI64` inverts `natToDecimal` for values in `i64` range. -/
theorem rustParseI64_natToDecimal (n : Nat) (h : n < 2 ^ 63) :
    rustParseI64 (natToDecimal n) = some (n : Int) := by
  obtain ⟨d, rest, heq, hd1, hd2⟩ := natToDecimal_head n
  have hp := parseDigits_natToDecimal n
  rw [heq] at hp ⊢
  simp only [rustParseI64]
  rw [if_neg (by omega), if_neg (by omega), hp]
  show (if n < 2 ^ 63 then some (n : Int) else none) = some (n : Int)
  rw [if_pos h]

/-- `rustParseI64` inverts `intToDecimal` on the `i64` range. -/
theorem rustParseI64_intToDecimal (i : Int) (h1 : -(2 ^ 63) ≤ i) (h2 : i < 2 ^ 63) :
    rustParseI64 (intToDecimal i) = some i := by
  unfold intToDecimal
  by_cases hneg : i < 0
  · rw [if_pos hneg]
    have hle : (-i).toNat ≤ 2 ^ 63 := by omega
    have hp := parseDigits_natToDecimal (-i).toNat
    simp only [rustParseI64, hp]
    norm_num [hle]
    omega
  · rw [if_neg hneg]
    have hn : (i.toNat : Int) = i := Int.toNat_of_nonneg (by omega)
    have hlt : i.toNat < 2 ^ 63 := by omega
    rw [rustParseI64_natToDecimal i.toNat hlt, hn]

/-! ## Line-scanning lemmas -/

theorem crlfFree_of_no13 : ∀ l : List Nat, (∀ b ∈ l, b ≠ 13) → crlfFree l = true := by
  intro l h
  induction l with
  | nil => rfl
  | cons a tail ih =>
    cases tail with
    | nil => rfl
    | cons b rest =>
      have ha : a ≠ 13 := h a (by simp)
      have ht := ih (fun x hx => h x (List.mem_cons_of_mem a hx))
      simp [crlfFree, ha, ht]

theorem crlfFree_cons : ∀ (a : Nat) (l : List Nat), a ≠ 13 → crlfFree l = true →
    crlfFree (a :: l) = true := by
  intro a l ha hl
  cases l with
  | nil => rfl
  | cons b rest => simp [crlfFree, ha, hl]

theorem crlfFree_of_append : ∀ p q : List Nat, crlfFree (p ++ q) = true → crlfFree p = true := by
  intro p
  induction p with
  | nil => intro q _; rfl
  | cons x tail ih =>
    intro q h
    cases tail with
    | nil => rfl
    | cons y rest =>
      simp only [List.cons_append] at h
      simp only [crlfFree, Bool.and_eq_true, Bool.not_eq_true'] at h ⊢
      exact ⟨h.1, ih q h.2⟩

theorem crlfFree_append_cr : ∀ l : List Nat, crlfFree l = true → crlfFree (l ++ [13]) = true := by
  intro l
  induction l with
  | nil => intro _; rfl
  | cons x tail ih =>
    intro h
    cases tail with
    | nil =>
      simp [crlfFree]
    | cons y rest =>
      simp only [crlfFree, Bool.and_eq_true, Bool.not_eq_true'] at h
      simp only [List.cons_append, crlfFree, Bool.and_eq_true, Bool.not_eq_true']
      exact ⟨h.1, ih h.2⟩

theorem peekLine_eq_none : ∀ l : List Nat, crlfFree l = true → peekLine l = none := by
  intro l h
  induction l with
  | nil => rfl
  | cons a tail ih =>
    cases tail with
    | nil => rfl
    | cons b rest =>
      simp only [crlfFree, Bool.and_eq_true, Bool.not_eq_true'] at h
      have hab : ¬(a = 13 ∧ b = 10) := by
        intro ⟨h1, h2⟩
        simp [h1, h2] at h
      simp [peekLine, hab, ih h.2]

theorem peekLine_append : ∀ (a t : List Nat), crlfFree a = true →
    peekLine (a ++ 13 :: 10 :: t) = some a := by
  intro a
  induction a with
  | nil =>
    intro t _
    simp [peekLine]
  | cons x tail ih =>
    intro t h
    cases tail with
    | nil =>
      have : ¬(x = 13 ∧ (13 : Nat) = 10) := by omega
      simp [peekLine, this]
    | cons y rest =>
      simp only [crlfFree, Bool.and_eq_true, Bool.not_eq_true'] at h
      have hxy : ¬(x = 13 ∧ y = 10) := by
        intro ⟨h1, h2⟩
        simp [h1, h2] at h
      have ih2 := ih t h.2
      simp only [List.cons_append] at ih2 ⊢
      rw [peekLine, if_neg hxy, ih2]
      rfl

theorem readLine_append (L T : List Nat) (h : crlfFree L = true) :
    readLine (L ++ 13 :: 10 :: T) = some (L, T) := by
  unfold readLine
  rw [peekLine_append L T h]
  show some (L, (L ++ 13 :: 10 :: T).drop (L.length + 2)) = some (L, T)
  have : (L ++ 13 :: 10 :: T).drop (L.length + 2) = T := by
    rw [show L ++ 13 :: 10 :: T = (L ++ [13, 10]) ++ T by simp]
    rw [show L.length + 2 = (L ++ [13, 10]).length by simp]
    exact List.drop_left _ _
  rw [this]

theorem consumeLine_append (L T : List Nat) (h : crlfFree L = true) :
    consumeLine (L ++ 13 :: 10 :: T) = T := by
  unfold consumeLine
  rw [readLine_append L T h]

theorem wfRespAll_mem : ∀ (elems : List RespValue) (v : RespValue),
    wfRespAll elems = true → v ∈ elems → wfResp v = true := by
  intro elems
  induction elems with
  | nil => intro v _ hv; cases hv
  | cons e rest ih =>
    intro v h hv
    rw [wfRespAll, Bool.and_eq_true] at h
    cases hv with
    | head => exact h.1
    | tail _ hv2 => exact ih v h.2 hv2

theorem respDepthList_mem : ∀ (elems : List RespValue) (v : RespValue),
    v ∈ elems → respDepth v ≤ respDepthList elems := by
  intro elems
  induction elems with
  | nil => intro v hv; cases hv
  | cons e rest ih =>
    intro v hv
    rw [respDepthList]
    cases hv with
    | head => exact le_max_left _ _
    | tail _ hv2 => exact le_trans (ih v hv2) (le_max_right _ _)

/-- Structural induction principle for `RespValue` giving the inductive
hypothesis at every member of an array. -/
theorem RespValue.myInd {P : RespValue → Prop}
    (hs : ∀ s, P (.simpleString s)) (he : ∀ s, P (.errorMsg s))
    (hi : ∀ i, P (.integer i)) (hb : ∀ b, P (.bulkString b)) (hn : P .null)
    (ha : ∀ elems, (∀ v ∈ elems, P v) → P (.array elems)) : ∀ v, P v := fun v =>
  match v with
  | .simpleString s => hs s
  | .errorMsg s => he s
  | .integer i => hi i
  | .bulkString b => hb b
  | .null => hn
  | .array elems =>
    ha elems (fun u hu => RespValue.myInd hs he hi hb hn ha u)
termination_by v => sizeOf v
decreasing_by
  have h1 := List.sizeOf_lt_of_mem hu
  simp only [RespValue.array.sizeOf_spec]
  omega

/-! ## Byte-level facts about encoded frames -/

theorem intToDecimal_bytes : ∀ (i : Int), ∀ b ∈ intToDecimal i, b ≠ 13 ∧ b < 128 := by
  intro i b hb
  unfold intToDecimal at hb
  by_cases hneg : i < 0
  · rw [if_pos hneg] at hb
    cases hb with
    | head => omega
    | tail _ h2 =>
      have := natToDecimal_digits (-i).toNat b h2
      omega
  · rw [if_neg hneg] at hb
    have := natToDecimal_digits i.toNat b hb
    omega

theorem crlfFree_natToDecimal (n : Nat) : crlfFree (natToDecimal n) = true :=
  crlfFree_of_no13 _ (fun b hb => by have := natToDecimal_digits n b hb; omega)

theorem validUtf8_natToDecimal (n : Nat) : validUtf8 (natToDecimal n) = true :=
  validUtf8_of_ascii _ (fun b hb => by have := natToDecimal_digits n b hb; omega)

theorem crlfFree_intToDecimal (i : Int) : crlfFree (intToDecimal i) = true :=
  crlfFree_of_no13 _ (fun b hb => (intToDecimal_bytes i b hb).1)

theorem validUtf8_intToDecimal (i : Int) : validUtf8 (intToDecimal i) = true :=
  validUtf8_of_ascii _ (fun b hb => (intToDecimal_bytes i b hb).2)

/-! ## Parsing a complete encoded frame -/

theorem parseSimpleString_complete (s T : List Nat)
    (hutf : validUtf8 s = true) (hfree : crlfFree s = true) :
    parseSimpleString (43 :: (s ++ 13 :: 10 :: T)) =
      .ok (.complete (.simpleString s) T) := by
  have h43 : crlfFree (43 :: s) = true := crlfFree_cons 43 s (by omega) hfree
  unfold parseSimpleString
  rw [show (43 :: (s ++ 13 :: 10 :: T)) = (43 :: s) ++ 13 :: 10 :: T by simp]
  rw [readLine_append _ _ h43]
  simp [hutf]

theorem parseErrorFrame_complete (s T : List Nat)
    (hutf : validUtf8 s = true) (hfree : crlfFree s = true) :
    parseErrorFrame (45 :: (s ++ 13 :: 10 :: T)) =
      .ok (.complete (.errorMsg s) T) := by
  have h45 : crlfFree (45 :: s) = true := crlfFree_cons 45 s (by omega) hfree
  unfold parseErrorFrame
  rw [show (45 :: (s ++ 13 :: 10 :: T)) = (45 :: s) ++ 13 :: 10 :: T by simp]
  rw [readLine_append _ _ h45]
  simp [hutf]

theorem parseInteger_complete (i : Int) (T : List Nat)
    (h1 : -(2 ^ 63) ≤ i) (h2 : i < 2 ^ 63) :
    parseInteger (58 :: (intToDecimal i ++ 13 :: 10 :: T)) =
      .ok (.complete (.integer i) T) := by
  have h58 : crlfFree (58 :: intToDecimal i) = true :=
    crlfFree_cons _ _ (by omega) (crlfFree_intToDecimal i)
  unfold parseInteger
  rw [show (58 :: (intToDecimal i ++ 13 :: 10 :: T)) =
    (58 :: intToDecimal i) ++ 13 :: 10 :: T by simp]
  rw [readLine_append _ _ h58]
  simp [validUtf8_intToDecimal i, rustParseI64_intToDecimal i h1 h2]

theorem parseBulkNull_complete (T : List Nat) :
    parseBulkString ([36, 45, 49] ++ 13 :: 10 :: T) = .ok (.complete .null T) := by
  have hp := peekLine_append [36, 45, 49] T (by rfl)
  have hc := consumeLine_append [36, 45, 49] T (by rfl)
  unfold parseBulkString
  rw [hp]
  simp only [show validUtf8 (List.drop 1 [36, 45, 49]) = true from rfl,
    show rustParseI64 (List.drop 1 [36, 45, 49]) = some (-1) from rfl, hc]
  norm_num

theorem parseBulkString_complete (b T : List Nat) (hlen : b.length < 2 ^ 63) :
    parseBulkString ((36 :: natToDecimal b.length) ++ 13 :: 10 :: (b ++ 13 :: 10 :: T)) =
      .ok (.complete (.bulkString b) T) := by
  have hfree : crlfFree (36 :: natToDecimal b.length) = true :=
    crlfFree_cons _ _ (by omega) (crlfFree_natToDecimal _)
  have hp := peekLine_append (36 :: natToDecimal b.length) (b ++ 13 :: 10 :: T) hfree
  have hc := consumeLine_append (36 :: natToDecimal b.length) (b ++ 13 :: 10 :: T) hfree
  unfold parseBulkString
  rw [hp]
  simp only [List.drop_succ_cons, List.drop_zero, validUtf8_natToDecimal,
    rustParseI64_natToDecimal _ hlen, hc, eq_self_iff_true, if_true]
  rw [if_neg (by omega), if_neg (by omega)]
  rw [if_neg (by
    simp only [List.length_append, List.length_cons, Int.toNat_natCast]
    omega)]
  simp only [Int.toNat_natCast, List.take_left, List.drop_left]
  simp

theorem commitElems_of_parseElems (p : List Nat → Except RespError ParseOutcome) :
    ∀ (n : Nat) (buf : List Nat) (vs : List RespValue) (r : List Nat),
      parseElems p n buf = .ok (some (vs, r)) → commitElems p n buf = .ok r := by
  intro n
  induction n with
  | zero =>
    intro buf vs r h
    simp only [parseElems, Except.ok.injEq, Option.some.injEq, Prod.mk.injEq] at h
    simp only [commitElems, h.2]
  | succ n ih =>
    intro buf vs r h
    simp only [parseElems] at h
    simp only [commitElems]
    cases hp : p buf with
    | error e => simp [hp] at h
    | ok oc =>
      cases oc with
      | incomplete b2 => simp [hp] at h
      | complete v b2 =>
        simp only [hp] at h ⊢
        cases hrec : parseElems p n b2 with
        | error e => simp [hrec] at h
        | ok orec =>
          cases orec with
          | none => simp [hrec] at h
          | some pr =>
            obtain ⟨vs2, r2⟩ := pr
            simp only [hrec, Except.ok.injEq, Option.some.injEq, Prod.mk.injEq] at h
            exact h.2 ▸ ih b2 vs2 r2 hrec

theorem parseElems_encList (p : List Nat → Except RespError ParseOutcome) :
    ∀ (elems : List RespValue) (T : List Nat),
      (∀ c ∈ elems, ∀ T2, p (respEncode c ++ T2) = .ok (.complete c T2)) →
      parseElems p elems.length (respEncodeList elems ++ T) = .ok (some (elems, T)) := by
  intro elems
  induction elems with
  | nil =>
    intro T _
    simp [parseElems, respEncodeList]
  | cons c cs ih =>
    intro T hall
    have hc := hall c (List.mem_cons_self c cs) (respEncodeList cs ++ T)
    have hrest := ih T (fun x hx => hall x (List.mem_cons_of_mem c hx))
    simp only [List.length_cons, respEncodeList, List.append_assoc, parseElems, hc, hrest]

/-- Parsing an encoding of a well-formed value, followed by any trailing
bytes, succeeds, returns the value, and consumes exactly the encoding,
provided the fuel exceeds the value's nesting depth. -/
theorem parseF_encode_complete :
    ∀ (fuel : Nat) (v : RespValue) (T : List Nat), wfResp v = true → respDepth v < fuel →
      parseF fuel (respEncode v ++ T) = .ok (.complete v T) := by
  intro fuel
  induction fuel with
  | zero =>
    intro v T _ hd
    exact absurd hd (Nat.not_lt_zero _)
  | succ fuel ih =>
    intro v T hwf hd
    cases v with
    | simpleString s =>
      rw [wfResp, Bool.and_eq_true] at hwf
      rw [show respEncode (.simpleString s) ++ T = 43 :: (s ++ 13 :: 10 :: T) by
        simp [respEncode]]
      simp only [parseF]
      norm_num
      exact parseSimpleString_complete s T hwf.1 hwf.2
    | errorMsg s =>
      rw [wfResp, Bool.and_eq_true] at hwf
      rw [show respEncode (.errorMsg s) ++ T = 45 :: (s ++ 13 :: 10 :: T) by
        simp [respEncode]]
      simp only [parseF]
      norm_num
      exact parseErrorFrame_complete s T hwf.1 hwf.2
    | integer i =>
      rw [wfResp, Bool.and_eq_true, decide_eq_true_iff, decide_eq_true_iff] at hwf
      rw [show respEncode (.integer i) ++ T = 58 :: (intToDecimal i ++ 13 :: 10 :: T) by
        simp [respEncode]]
      simp only [parseF]
      norm_num
      exact parseInteger_complete i T hwf.1 hwf.2
    | bulkString b =>
      rw [wfResp, decide_eq_true_iff] at hwf
      rw [show respEncode (.bulkString b) ++ T =
        36 :: (natToDecimal b.length ++ 13 :: 10 :: (b ++ 13 :: 10 :: T)) by
        simp [respEncode]]
      simp only [parseF]
      norm_num
      rw [show 36 :: (natToDecimal b.length ++ 13 :: 10 :: (b ++ 13 :: 10 :: T)) =
        (36 :: natToDecimal b.length) ++ 13 :: 10 :: (b ++ 13 :: 10 :: T) by simp]
      exact parseBulkString_complete b T (by omega)
    | null =>
      rw [show respEncode .null ++ T = 36 :: (45 :: 49 :: 13 :: 10 :: T) by simp [respEncode]]
      simp only [parseF]
      norm_num
      exact parseBulkNull_complete T
    | array elems =>
      rw [wfResp, Bool.and_eq_true, decide_eq_true_iff] at hwf
      rw [respDepth] at hd
      have hchild : ∀ c ∈ elems, ∀ T2,
          parseF fuel (respEncode c ++ T2) = .ok (.complete c T2) := by
        intro c hcmem T2
        exact ih c T2 (wfRespAll_mem elems c hwf.2 hcmem)
          (lt_of_le_of_lt (respDepthList_mem elems c hcmem) (by omega))
      rw [show respEncode (.array elems) ++ T =
        42 :: (natToDecimal elems.length ++ 13 :: 10 :: (respEncodeList elems ++ T)) by
        simp [respEncode]]
      simp only [parseF]
      norm_num
      have hfree : crlfFree (42 :: natToDecimal elems.length) = true :=
        crlfFree_cons _ _ (by omega) (crlfFree_natToDecimal _)
      have hp2 : peekLine (42 :: (natToDecimal elems.length ++ 13 :: 10 ::
          (respEncodeList elems ++ T))) = some (42 :: natToDecimal elems.length) := by
        have := peekLine_append (42 :: natToDecimal elems.length)
          (respEncodeList elems ++ T) hfree
        simpa using this
      have hc2 : consumeLine (42 :: (natToDecimal elems.length ++ 13 :: 10 ::
          (respEncodeList elems ++ T))) = respEncodeList elems ++ T := by
        have := consumeLine_append (42 :: natToDecimal elems.length)
          (respEncodeList elems ++ T) hfree
        simpa using this
      unfold parseArray
      rw [hp2]
      have hel := parseElems_encList (parseF fuel) elems T hchild
      have hcm := commitElems_of_parseElems (parseF fuel) elems.length
        (respEncodeList elems ++ T) elems T hel
      simp only [List.drop_succ_cons, List.drop_zero, validUtf8_natToDecimal,
        rustParseI64_natToDecimal _ hwf.1, eq_self_iff_true, if_true, hc2]
      rw [if_neg (by omega), if_neg (by omega)]
      simp only [Int.toNat_natCast, hel, hcm]

/-! ## The need-more-bytes outcome never consumes input -/

theorem parseSimpleString_incomplete (buf r : List Nat)
    (he : parseSimpleString buf = .ok (.incomplete r)) : r = buf := by
  unfold parseSimpleString at he
  try dsimp only at he
  repeat' split at he
  all_goals first
    | (simp only [Except.ok.injEq, ParseOutcome.incomplete.injEq] at he; exact he.symm)
    | simp at he

theorem parseErrorFrame_incomplete (buf r : List Nat)
    (he : parseErrorFrame buf = .ok (.incomplete r)) : r = buf := by
  unfold parseErrorFrame at he
  try dsimp only at he
  repeat' split at he
  all_goals first
    | (simp only [Except.ok.injEq, ParseOutcome.incomplete.injEq] at he; exact he.symm)
    | simp at he

theorem parseInteger_incomplete (buf r : List Nat)
    (he : parseInteger buf = .ok (.incomplete r)) : r = buf := by
  unfold parseInteger at he
  try dsimp only at he
  repeat' split at he
  all_goals first
    | (simp only [Except.ok.injEq, ParseOutcome.incomplete.injEq] at he; exact he.symm)
    | simp at he

theorem parseBulkString_incomplete (buf r : List Nat)
    (he : parseBulkString buf = .ok (.incomplete r)) : r = buf := by
  unfold parseBulkString at he
  try dsimp only at he
  repeat' split at he
  all_goals first
    | (simp only [Except.ok.injEq, ParseOutcome.incomplete.injEq] at he; exact he.symm)
    | simp at he

theorem parseArray_incomplete (p : List Nat → Except RespError ParseOutcome)
    (buf r : List Nat) (he : parseArray p buf = .ok (.incomplete r)) : r = buf := by
  unfold parseArray at he
  try dsimp only at he
  repeat' split at he
  all_goals first
    | (simp only [Except.ok.injEq, ParseOutcome.incomplete.injEq] at he; exact he.symm)
    | simp at he

/-- Whenever `parse` reports the need-more-bytes outcome, the buffer it
hands back is byte-for-byte the input buffer. -/
theorem parseF_incomplete (fuel : Nat) (buf r : List Nat)
    (he : parseF fuel buf = .ok (.incomplete r)) : r = buf := by
  cases fuel with
  | zero =>
    simp only [parseF, Except.ok.injEq, ParseOutcome.incomplete.injEq] at he
    exact he.symm
  | succ fuel =>
    unfold parseF at he
    split at he
    · simp only [Except.ok.injEq, ParseOutcome.incomplete.injEq] at he
      exact he.symm ▸ rfl
    · split at he
      · exact parseSimpleString_incomplete _ _ he
      · split at he
        · exact parseErrorFrame_incomplete _ _ he
        · split at he
          · exact parseInteger_incomplete _ _ he
          · split at he
            · exact parseBulkString_incomplete _ _ he
            · split at he
              · exact parseArray_incomplete _ _ _ he
              · simp at he

/-! ## Strict prefixes of an encoding parse as need-more-bytes -/

theorem parseF_nil (fuel : Nat) : parseF fuel [] = .ok (.incomplete []) := by
  cases fuel with
  | zero => rfl
  | succ fuel => rfl

theorem respEncode_ne_nil (v : RespValue) : respEncode v ≠ [] := by
  cases v <;> simp [respEncode]

theorem respEncodeList_eq_nil (elems : List RespValue) :
    respEncodeList elems = [] → elems = [] := by
  cases elems with
  | nil => intro _; rfl
  | cons c cs =>
    intro h
    rw [respEncodeList] at h
    exact absurd (List.append_eq_nil.mp h).1 (respEncode_ne_nil c)

/-- A strict prefix of a terminated line contains no CRLF. -/
theorem peekLine_strictPre (L p s : List Nat) (hf : crlfFree L = true)
    (heq : p ++ s = L ++ [13, 10]) (hs : s ≠ []) : peekLine p = none := by
  have hlen : p.length ≤ (L ++ [13]).length := by
    have h1 : p.length + s.length = L.length + 2 := by
      have := congrArg List.length heq
      simpa using this
    have h2 : 1 ≤ s.length := by
      cases s with
      | nil => exact absurd rfl hs
      | cons a t => simp
    simp only [List.length_append, List.length_cons, List.length_nil]
    omega
  have hfree13 : crlfFree (L ++ [13]) = true := crlfFree_append_cr L hf
  have hp : p = (L ++ [13]).take p.length := by
    have h3 : p = (p ++ s).take p.length := (List.take_left p s).symm
    rw [heq] at h3
    rw [show L ++ [13, 10] = (L ++ [13]) ++ [10] by simp] at h3
    rwa [List.take_append_of_le_length hlen] at h3
  have : crlfFree p = true := by
    rw [hp]
    apply crlfFree_of_append _ ((L ++ [13]).drop p.length)
    rw [List.take_append_drop]
    exact hfree13
  exact peekLine_eq_none p this

theorem parseElems_encList_dicho (p : List Nat → Except RespError ParseOutcome) :
    ∀ (elems : List RespValue) (T : List Nat),
      (∀ c ∈ elems, ∀ T2, p (respEncode c ++ T2) = .ok (.complete c T2) ∨
        p (respEncode c ++ T2) = .ok (.incomplete (respEncode c ++ T2))) →
      parseElems p elems.length (respEncodeList elems ++ T) = .ok (some (elems, T)) ∨
      parseElems p elems.length (respEncodeList elems ++ T) = .ok none := by
  intro elems
  induction elems with
  | nil =>
    intro T _
    left
    simp [parseElems, respEncodeList]
  | cons c cs ih =>
    intro T hall
    have hrest := ih T (fun x hx => hall x (List.mem_cons_of_mem c hx))
    cases hall c (List.mem_cons_self c cs) (respEncodeList cs ++ T) with
    | inl hc =>
      cases hrest with
      | inl hr =>
        left
        simp only [List.length_cons, respEncodeList, List.append_assoc, parseElems, hc, hr]
      | inr hr =>
        right
        simp only [List.length_cons, respEncodeList, List.append_assoc, parseElems, hc, hr]
    | inr hc =>
      right
      simp only [List.length_cons, respEncodeList, List.append_assoc, parseElems, hc]

/-- Parsing an encoding of a well-formed value plus a tail either
completes with exactly the encoding consumed, or makes no progress at
all — regardless of fuel. -/
theorem parseF_encode_dicho :
    ∀ (fuel : Nat) (v : RespValue) (T : List Nat), wfResp v = true →
      parseF fuel (respEncode v ++ T) = .ok (.complete v T) ∨
      parseF fuel (respEncode v ++ T) = .ok (.incomplete (respEncode v ++ T)) := by
  intro fuel
  induction fuel with
  | zero =>
    intro v T _
    right
    rfl
  | succ fuel ih =>
    intro v T hwf
    cases v with
    | array elems =>
      rw [wfResp, Bool.and_eq_true, decide_eq_true_iff] at hwf
      have hchild : ∀ c ∈ elems, ∀ T2,
          parseF fuel (respEncode c ++ T2) = .ok (.complete c T2) ∨
          parseF fuel (respEncode c ++ T2) = .ok (.incomplete (respEncode c ++ T2)) :=
        fun c hcmem T2 => ih c T2 (wfRespAll_mem elems c hwf.2 hcmem)
      rw [show respEncode (.array elems) ++ T =
        42 :: (natToDecimal elems.length ++ 13 :: 10 :: (respEncodeList elems ++ T)) by
        simp [respEncode]]
      simp only [parseF]
      norm_num
      have hfree : crlfFree (42 :: natToDecimal elems.length) = true :=
        crlfFree_cons _ _ (by omega) (crlfFree_natToDecimal _)
      have hp2 : peekLine (42 :: (natToDecimal elems.length ++ 13 :: 10 ::
          (respEncodeList elems ++ T))) = some (42 :: natToDecimal elems.length) := by
        have := peekLine_append (42 :: natToDecimal elems.length)
          (respEncodeList elems ++ T) hfree
        simpa using this
      have hc2 : consumeLine (42 :: (natToDecimal elems.length ++ 13 :: 10 ::
          (respEncodeList elems ++ T))) = respEncodeList elems ++ T := by
        have := consumeLine_append (42 :: natToDecimal elems.length)
          (respEncodeList elems ++ T) hfree
        simpa using this
      unfold parseArray
      rw [hp2]
      cases parseElems_encList_dicho (parseF fuel) elems T hchild with
      | inl hel =>
        left
        have hcm := commitElems_of_parseElems (parseF fuel) elems.length
          (respEncodeList elems ++ T) elems T hel
        simp only [List.drop_succ_cons, List.drop_zero, validUtf8_natToDecimal,
          rustParseI64_natToDecimal _ hwf.1, eq_self_iff_true, if_true, hc2]
        rw [if_neg (by omega), if_neg (by omega)]
        simp only [Int.toNat_natCast, hel, hcm]
      | inr hel =>
        right
        simp only [List.drop_succ_cons, List.drop_zero, validUtf8_natToDecimal,
          rustParseI64_natToDecimal _ hwf.1, eq_self_iff_true, if_true, hc2]
        rw [if_neg (by omega), if_neg (by omega)]
        simp only [Int.toNat_natCast, hel]
    | simpleString s =>
      exact Or.inl (parseF_encode_complete (fuel + 1) (.simpleString s) T hwf
        (by rw [respDepth]; omega))
    | errorMsg s =>
      exact Or.inl (parseF_encode_complete (fuel + 1) (.errorMsg s) T hwf
        (by rw [respDepth]; omega))
    | integer i =>
      exact Or.inl (parseF_encode_complete (fuel + 1) (.integer i) T hwf
        (by rw [respDepth]; omega))
    | bulkString b =>
      exact Or.inl (parseF_encode_complete (fuel + 1) (.bulkString b) T hwf
        (by rw [respDepth]; omega))
    | null =>
      exact Or.inl (parseF_encode_complete (fuel + 1) .null T hwf
        (by rw [respDepth]; omega))

theorem parseSimpleString_peekNone (buf : List Nat) (h : peekLine buf = none) :
    parseSimpleString buf = .ok (.incomplete buf) := by
  simp [parseSimpleString, readLine, h]

theorem parseErrorFrame_peekNone (buf : List Nat) (h : peekLine buf = none) :
    parseErrorFrame buf = .ok (.incomplete buf) := by
  simp [parseErrorFrame, readLine, h]

theorem parseInteger_peekNone (buf : List Nat) (h : peekLine buf = none) :
    parseInteger buf = .ok (.incomplete buf) := by
  simp [parseInteger, readLine, h]

theorem parseBulkString_peekNone (buf : List Nat) (h : peekLine buf = none) :
    parseBulkString buf = .ok (.incomplete buf) := by
  simp [parseBulkString, h]

theorem parseArray_peekNone (p : List Nat → Except RespError ParseOutcome)
    (buf : List Nat) (h : peekLine buf = none) :
    parseArray p buf = .ok (.incomplete buf) := by
  simp [parseArray, h]

theorem parseElems_strictPre (fuel : Nat) :
    ∀ (elems : List RespValue), wfRespAll elems = true →
      (∀ c ∈ elems, ∀ (p2 s2 : List Nat), p2 ++ s2 = respEncode c → s2 ≠ [] →
        ∀ f, parseF f p2 = .ok (.incomplete p2)) →
      ∀ (q s : List Nat), q ++ s = respEncodeList elems → s ≠ [] →
        parseElems (parseF fuel) elems.length q = .ok none := by
  intro elems
  induction elems with
  | nil =>
    intro _ _ q s heq hsne
    rw [respEncodeList] at heq
    exact absurd (List.append_eq_nil.mp heq).2 hsne
  | cons c cs ih =>
    intro hwf hpre q s heq hsne
    rw [wfRespAll, Bool.and_eq_true] at hwf
    rw [respEncodeList] at heq
    rcases List.append_eq_append_iff.mp heq with ⟨a2, hx, hy⟩ | ⟨c2, hp, hy⟩
    · by_cases ha : a2 = []
      · subst ha
        rw [List.append_nil] at hx
        -- q is exactly the encoding of c; the remaining children are missing
        have hcs : cs ≠ [] := by
          intro hnil
          rw [hnil, respEncodeList] at hy
          rw [List.append_nil] at hy
          exact hsne hy
        cases parseF_encode_dicho fuel c [] hwf.1 with
        | inl hc =>
          rw [List.append_nil] at hc
          rw [hx] at hc
          cases cs with
          | nil => exact absurd rfl hcs
          | cons c3 cs3 =>
            simp only [List.length_cons, parseElems, hc, parseF_nil]
        | inr hc =>
          rw [List.append_nil] at hc
          rw [hx] at hc
          simp only [List.length_cons, parseElems, hc]
      · -- q is a strict prefix of the encoding of c
        have hq : parseF fuel q = .ok (.incomplete q) :=
          hpre c (List.mem_cons_self c cs) q a2 hx.symm ha fuel
        simp only [List.length_cons, parseElems, hq]
    · -- q covers the encoding of c entirely and continues into the rest
      cases parseF_encode_dicho fuel c c2 hwf.1 with
      | inl hc =>
        rw [← hp] at hc
        have hrec := ih hwf.2 (fun x hx2 => hpre x (List.mem_cons_of_mem c hx2))
          c2 s hy.symm hsne
        simp only [List.length_cons, parseElems, hc, hrec]
      | inr hc =>
        rw [← hp] at hc
        simp only [List.length_cons, parseElems, hc]

theorem parseBulkString_strictPre2 (b0 c2 s : List Nat) (hlen : b0.length < 2 ^ 63)
    (hy : c2 ++ s = b0 ++ [13, 10]) (hsne : s ≠ []) :
    parseBulkString ((36 :: natToDecimal b0.length) ++ 13 :: 10 :: c2) =
      .ok (.incomplete ((36 :: natToDecimal b0.length) ++ 13 :: 10 :: c2)) := by
  have hfree : crlfFree (36 :: natToDecimal b0.length) = true :=
    crlfFree_cons _ _ (by omega) (crlfFree_natToDecimal _)
  have hc2len : c2.length < b0.length + 2 := by
    have h1 := congrArg List.length hy
    simp only [List.length_append, List.length_cons, List.length_nil] at h1
    have h2 : 1 ≤ s.length := by
      cases s with
      | nil => exact absurd rfl hsne
      | cons a t => simp
    omega
  unfold parseBulkString
  rw [peekLine_append _ _ hfree]
  simp only [List.drop_succ_cons, List.drop_zero, validUtf8_natToDecimal,
    rustParseI64_natToDecimal _ hlen, eq_self_iff_true, if_true]
  rw [if_neg (by omega), if_neg (by omega)]
  simp only [Int.toNat_natCast]
  rw [if_pos (by
    simp only [List.length_append, List.length_cons]
    omega)]

theorem parseArray_strictPre2 (fuel : Nat) (elems : List RespValue) (q s : List Nat)
    (hcnt : elems.length < 2 ^ 63) (hwfall : wfRespAll elems = true)
    (hpre : ∀ c ∈ elems, ∀ (p2 s2 : List Nat), p2 ++ s2 = respEncode c → s2 ≠ [] →
      ∀ f, parseF f p2 = .ok (.incomplete p2))
    (hy : q ++ s = respEncodeList elems) (hsne : s ≠ []) :
    parseArray (parseF fuel) ((42 :: natToDecimal elems.length) ++ 13 :: 10 :: q) =
      .ok (.incomplete ((42 :: natToDecimal elems.length) ++ 13 :: 10 :: q)) := by
  have hfree : crlfFree (42 :: natToDecimal elems.length) = true :=
    crlfFree_cons _ _ (by omega) (crlfFree_natToDecimal _)
  have hel := parseElems_strictPre fuel elems hwfall hpre q s hy hsne
  unfold parseArray
  rw [peekLine_append _ _ hfree]
  simp only [List.drop_succ_cons, List.drop_zero, validUtf8_natToDecimal,
    rustParseI64_natToDecimal _ hcnt, eq_self_iff_true, if_true,
    consumeLine_append _ _ hfree]
  rw [if_neg (by omega), if_neg (by omega)]
  simp only [Int.toNat_natCast, hel]

/-- Feeding the parser any strict prefix of the encoding of a
well-formed value returns the need-more-bytes outcome with the buffer
untouched; in particular an array whose children are not all available
consumes neither its count header nor any already-decoded child. -/
theorem parseF_strictPre :
    ∀ (v : RespValue), wfResp v = true →
      ∀ (fuel : Nat) (p s : List Nat), p ++ s = respEncode v → s ≠ [] →
        parseF fuel p = .ok (.incomplete p) := by
  intro v
  induction v using RespValue.myInd with
  | hs s0 =>
    intro hwf fuel p s heq hsne
    rw [wfResp, Bool.and_eq_true] at hwf
    have heq2 : p ++ s = (43 :: s0) ++ [13, 10] := by rw [heq]; simp [respEncode]
    have hpk : peekLine p = none :=
      peekLine_strictPre (43 :: s0) p s (crlfFree_cons _ _ (by omega) hwf.2) heq2 hsne
    cases fuel with
    | zero => rfl
    | succ fuel =>
      cases p with
      | nil => rfl
      | cons b p2 =>
        have hb : b = 43 := by
          have h3 := congrArg List.head? heq2
          simpa using h3
        subst hb
        simp only [parseF]
        norm_num
        exact parseSimpleString_peekNone _ hpk
  | he s0 =>
    intro hwf fuel p s heq hsne
    rw [wfResp, Bool.and_eq_true] at hwf
    have heq2 : p ++ s = (45 :: s0) ++ [13, 10] := by rw [heq]; simp [respEncode]
    have hpk : peekLine p = none :=
      peekLine_strictPre (45 :: s0) p s (crlfFree_cons _ _ (by omega) hwf.2) heq2 hsne
    cases fuel with
    | zero => rfl
    | succ fuel =>
      cases p with
      | nil => rfl
      | cons b p2 =>
        have hb : b = 45 := by
          have h3 := congrArg List.head? heq2
          simpa using h3
        subst hb
        simp only [parseF]
        norm_num
        exact parseErrorFrame_peekNone _ hpk
  | hi i =>
    intro _ fuel p s heq hsne
    have heq2 : p ++ s = (58 :: intToDecimal i) ++ [13, 10] := by
      rw [heq]; simp [respEncode]
    have hpk : peekLine p = none :=
      peekLine_strictPre (58 :: intToDecimal i) p s
        (crlfFree_cons _ _ (by omega) (crlfFree_intToDecimal i)) heq2 hsne
    cases fuel with
    | zero => rfl
    | succ fuel =>
      cases p with
      | nil => rfl
      | cons b p2 =>
        have hb : b = 58 := by
          have h3 := congrArg List.head? heq2
          simpa using h3
        subst hb
        simp only [parseF]
        norm_num
        exact parseInteger_peekNone _ hpk
  | hn =>
    intro _ fuel p s heq hsne
    have heq2 : p ++ s = [36, 45, 49] ++ [13, 10] := by rw [heq]; simp [respEncode]
    have hpk : peekLine p = none :=
      peekLine_strictPre [36, 45, 49] p s (by rfl) heq2 hsne
    cases fuel with
    | zero => rfl
    | succ fuel =>
      cases p with
      | nil => rfl
      | cons b p2 =>
        have hb : b = 36 := by
          have h3 := congrArg List.head? heq2
          simpa using h3
        subst hb
        simp only [parseF]
        norm_num
        exact parseBulkString_peekNone _ hpk
  | hb b0 =>
    intro hwf fuel p s heq hsne
    rw [wfResp, decide_eq_true_iff] at hwf
    have hlen : b0.length < 2 ^ 63 := by omega
    have henc : respEncode (.bulkString b0) =
        ((36 :: natToDecimal b0.length) ++ [13, 10]) ++ (b0 ++ [13, 10]) := by
      simp [respEncode]
    rw [henc] at heq
    have hB : ∀ c2, p = (36 :: natToDecimal b0.length) ++ 13 :: 10 :: c2 →
        c2 ++ s = b0 ++ [13, 10] →
        parseF fuel p = .ok (.incomplete p) := by
      intro c2 hpform hy2
      cases fuel with
      | zero => rfl
      | succ fuel =>
        subst hpform
        simp only [List.cons_append, parseF]
        norm_num
        have := parseBulkString_strictPre2 b0 c2 s hlen hy2 hsne
        simpa using this
    rcases List.append_eq_append_iff.mp heq with ⟨a2, hx, hy⟩ | ⟨c2, hp, hy⟩
    · by_cases ha : a2 = []
      · subst ha
        rw [List.append_nil] at hx
        rw [List.nil_append] at hy
        exact hB [] (by rw [← hx]; try simp) (by simp [hy])
      · have hpk : peekLine p = none :=
          peekLine_strictPre (36 :: natToDecimal b0.length) p a2
            (crlfFree_cons _ _ (by omega) (crlfFree_natToDecimal _)) hx.symm ha
        cases fuel with
        | zero => rfl
        | succ fuel =>
          cases p with
          | nil => rfl
          | cons b p2 =>
            have hb2 : b = 36 := by
              have h3 := congrArg List.head? hx
              simpa using h3.symm
            subst hb2
            simp only [parseF]
            norm_num
            exact parseBulkString_peekNone _ hpk
    · exact hB c2 (by rw [hp]; simp) hy.symm
  | ha elems ihmem =>
    intro hwf fuel p s heq hsne
    rw [wfResp, Bool.and_eq_true, decide_eq_true_iff] at hwf
    have hpre : ∀ c ∈ elems, ∀ (p2 s2 : List Nat), p2 ++ s2 = respEncode c → s2 ≠ [] →
        ∀ f, parseF f p2 = .ok (.incomplete p2) := by
      intro c hc p2 s2 h1 h2 f
      exact ihmem c hc (wfRespAll_mem elems c hwf.2 hc) f p2 s2 h1 h2
    have henc : respEncode (.array elems) =
        ((42 :: natToDecimal elems.length) ++ [13, 10]) ++ respEncodeList elems := by
      simp [respEncode]
    rw [henc] at heq
    have hB : ∀ q, p = (42 :: natToDecimal elems.length) ++ 13 :: 10 :: q →
        q ++ s = respEncodeList elems →
        parseF fuel p = .ok (.incomplete p) := by
      intro q hpform hy2
      cases fuel with
      | zero => rfl
      | succ fuel =>
        subst hpform
        simp only [List.cons_append, parseF]
        norm_num
        have := parseArray_strictPre2 fuel elems q s hwf.1 hwf.2 hpre hy2 hsne
        simpa using this
    rcases List.append_eq_append_iff.mp heq with ⟨a2, hx, hy⟩ | ⟨c2, hp, hy⟩
    · by_cases ha2 : a2 = []
      · subst ha2
        rw [List.append_nil] at hx
        rw [List.nil_append] at hy
        exact hB [] (by rw [← hx]; try simp) (by simp [hy])
      · have hpk : peekLine p = none :=
          peekLine_strictPre (42 :: natToDecimal elems.length) p a2
            (crlfFree_cons _ _ (by omega) (crlfFree_natToDecimal _)) hx.symm ha2
        cases fuel with
        | zero => rfl
        | succ fuel =>
          cases p with
          | nil => rfl
          | cons b p2 =>
            have hb2 : b = 42 := by
              have h3 := congrArg List.head? hx
              simpa using h3.symm
            subst hb2
            simp only [parseF]
            norm_num
            exact parseArray_peekNone _ _ hpk
    · exact hB c2 (by rw [hp]; simp) hy.symm

theorem respDepthList_le_encLen (elems : List RespValue)
    (h : ∀ c ∈ elems, respDepth c ≤ (respEncode c).length) :
    respDepthList elems ≤ (respEncodeList elems).length := by
  induction elems with
  | nil => simp [respDepthList]
  | cons c cs ih =>
    rw [respDepthList, respEncodeList]
    have h1 := h c (List.mem_cons_self c cs)
    have h2 := ih (fun x hx => h x (List.mem_cons_of_mem c hx))
    simp only [List.length_append]
    omega

theorem respDepth_le_encLen : ∀ v : RespValue, respDepth v ≤ (respEncode v).length := by
  intro v
  induction v using RespValue.myInd with
  | hs s => rw [respDepth]; omega
  | he s => rw [respDepth]; omega
  | hi i => rw [respDepth]; omega
  | hb b => rw [respDepth]; omega
  | hn => rw [respDepth]; omega
  | ha elems ih =>
    rw [respDepth, respEncode]
    have := respDepthList_le_encLen elems ih
    simp only [List.length_cons, List.length_append]
    omega

/-- Parsing the exact encoding of a well-formed value yields the value
with the whole buffer consumed. -/
theorem RespParser_parse_encode (v : RespValue) (hwf : wfResp v = true) :
    RespParser.parse (respEncode v) = .ok (.complete v []) := by
  unfold RespParser.parse
  have h1 : respDepth v < (respEncode v).length + 1 :=
    lt_of_le_of_lt (respDepth_le_encLen v) (by omega)
  have h2 := parseF_encode_complete ((respEncode v).length + 1) v [] hwf h1
  rw [List.append_nil] at h2
  rw [show ((respEncode v).length + 1) = ((respEncode v).length + 1) from rfl]
  exact h2

/-- C1: whenever the RESP2 parser cannot decode one complete frame at
the head of the buffer it returns the need-more-bytes outcome carrying
the input buffer byte-for-byte unchanged: (1) every need-more-bytes
outcome hands back exactly the input buffer, and (2) on any strict
prefix of the encoding of a (well-formed) frame — in particular an
array some of whose child frames are missing — `parse` reports
need-more-bytes with the buffer unchanged, so neither an array's count
header nor any already-decoded child is consumed. -/
theorem c1_incomplete_leaves_buffer_unchanged :
    (∀ (fuel : Nat) (buf r : List Nat), parseF fuel buf = .ok (.incomplete r) → r = buf) ∧
    (∀ (v : RespValue) (p s : List Nat), wfResp v = true → p ++ s = respEncode v →
      s ≠ [] → RespParser.parse p = .ok (.incomplete p)) :=
  ⟨parseF_incomplete,
   fun v p s hwf heq hs => parseF_strictPre v hwf _ p s heq hs⟩

/-- Witness for C1 at the spec's own partial-read scenario S6: feeding
`*2\r\n$3\r\nfoo\r\n$3\r\nba` (a strict prefix of the encoding of the
array `[foo, bar]`) returns need-more-bytes with the buffer unchanged. -/
theorem c1_incomplete_witness :
    RespParser.parse [42, 50, 13, 10, 36, 51, 13, 10, 102, 111, 111, 13, 10,
      36, 51, 13, 10, 98, 97] =
    .ok (.incomplete [42, 50, 13, 10, 36, 51, 13, 10, 102, 111, 111, 13, 10,
      36, 51, 13, 10, 98, 97]) :=
  c1_incomplete_leaves_buffer_unchanged.2
    (.array [.bulkString [102, 111, 111], .bulkString [98, 97, 114]])
    [42, 50, 13, 10, 36, 51, 13, 10, 102, 111, 111, 13, 10, 36, 51, 13, 10, 98, 97]
    [114, 13, 10] (by rfl) (by rfl) (by simp)

/-- C2 (counterexample): the simple string whose payload contains a CRLF
pair is in the claim's variant domain (depth 0 ≤ 8, no bulk string), yet
parsing its encoding does not give the value back: the parser stops the
payload at the first CRLF. -/
theorem c2_counterexample :
    respDepth (RespValue.simpleString [97, 13, 10, 98]) ≤ 8 ∧
    RespParser.parse (respEncode (.simpleString [97, 13, 10, 98])) ≠
      .ok (.complete (.simpleString [97, 13, 10, 98]) []) := by
  constructor
  · decide
  · intro h
    rw [show RespParser.parse (respEncode (.simpleString [97, 13, 10, 98])) =
      .ok (.complete (.simpleString [97]) [98, 13, 10]) from rfl] at h
    simp at h

/-- C2 (amended): for every RESP value in the variant domain whose
`String` payloads (simple string and error) are valid UTF-8 and contain
no CRLF pair, with bulk strings up to 1 MiB, `i64` integers, and arrays
of depth at most 8, parsing the encoder's output yields the value again
and consumes exactly the whole encoding. -/
theorem c2_roundtrip_amended (v : RespValue) (hwf : wfResp v = true)
    (hdepth : respDepth v ≤ 8) :
    RespParser.parse (respEncode v) = .ok (.complete v []) :=
  RespParser_parse_encode v hwf

/-- Witness for C2 (amended) on the array `[foo, 42, null]`. -/
theorem c2_roundtrip_witness :
    RespParser.parse (respEncode (.array [.bulkString [102, 111, 111],
      .integer 42, .null])) =
    .ok (.complete (.array [.bulkString [102, 111, 111], .integer 42, .null]) []) :=
  c2_roundtrip_amended (.array [.bulkString [102, 111, 111], .integer 42, .null])
    (by rfl) (by decide)

/-- C10: the parser decodes both the null bulk string `$-1\r\n` and the
null array `*-1\r\n` to the same `Null` value, while the encoder always
emits `Null` as `$-1\r\n`; hence re-encoding the value parsed from
`*-1\r\n` produces different bytes than were consumed, even though the
decoded value round-trips. -/
theorem c10_null_wire_forms :
    RespParser.parse [36, 45, 49, 13, 10] = .ok (.complete .null []) ∧
    RespParser.parse [42, 45, 49, 13, 10] = .ok (.complete .null []) ∧
    respEncode .null = [36, 45, 49, 13, 10] ∧
    respEncode .null ≠ [42, 45, 49, 13, 10] := by
  refine ⟨rfl, rfl, rfl, ?_⟩
  decide

theorem findEntry_insertEntry_self :
    ∀ (l : List (ByteStr × Entry)) (k : ByteStr) (e : Entry),
      findEntry (insertEntry l k e) k = some e := by
  intro l k e
  induction l with
  | nil => simp [insertEntry, findEntry]
  | cons p rest ih =>
    obtain ⟨k2, e2⟩ := p
    by_cases hk : k2 = k
    · simp [insertEntry, findEntry, hk]
    · simp [insertEntry, findEntry, hk, ih]

theorem leBytes_length : ∀ (k n : Nat), (leBytes k n).length = k := by
  intro k
  induction k with
  | zero => intro n; rfl
  | succ k ih => intro n; rw [leBytes, List.length_cons, ih]

theorem readPayloads_pos_le (data : List Nat) :
    ∀ (c pos : Nat) (ps : List ByteStr) (p2 : Nat),
      readPayloads data c pos = .ok (ps, p2) → pos ≤ p2 := by
  intro c
  induction c with
  | zero =>
    intro pos ps p2 h
    simp only [readPayloads, Except.ok.injEq, Prod.mk.injEq] at h
    omega
  | succ c ih =>
    intro pos ps p2 h
    simp only [readPayloads] at h
    split at h
    · simp at h
    · split at h
      · simp at h
      · cases hrec : readPayloads data c (pos + 4 + leRead 4 (data.drop pos)) with
        | error e => rw [hrec] at h; simp at h
        | ok pr =>
          obtain ⟨ps3, p3⟩ := pr
          rw [hrec] at h
          simp only [Except.ok.injEq, Prod.mk.injEq] at h
          have := ih (pos + 4 + leRead 4 (data.drop pos)) ps3 p3 hrec
          omega

/-- C7: `MemoryStore::ttl` follows the TTL conventions: `-2` when the
key is absent or already expired, `-1` when the key exists without an
expiration, and a non-negative number of seconds when the key exists
with an expiration that has not yet passed. -/
theorem c7_ttl_conventions (st : MemoryStore) (k : ByteStr) (now : Nat) :
    (findEntry st.store k = none → (MemoryStore.ttl st k now).1 = -2) ∧
    (∀ e, findEntry st.store k = some e → e.isExpired now = true →
      (MemoryStore.ttl st k now).1 = -2) ∧
    (∀ e, findEntry st.store k = some e → e.expireAt = none →
      (MemoryStore.ttl st k now).1 = -1) ∧
    (∀ e t, findEntry st.store k = some e → e.expireAt = some t →
      e.isExpired now = false → 0 ≤ (MemoryStore.ttl st k now).1) := by
  refine ⟨?_, ?_, ?_, ?_⟩
  · intro h
    simp [MemoryStore.ttl, h]
  · intro e he hexp
    simp [MemoryStore.ttl, he, hexp]
  · intro e he hnone
    have hexp : e.isExpired now = false := by simp [Entry.isExpired, hnone]
    simp [MemoryStore.ttl, he, hexp, Entry.ttlSeconds, hnone]
  · intro e t he ht hexp
    have hlt : now < t := by
      rw [Entry.isExpired, ht] at hexp
      simpa using hexp
    simp [MemoryStore.ttl, he, hexp, Entry.ttlSeconds, ht, hlt]
    positivity

/-- Witness for C7: a key with a 5-second expiry one nanosecond into its
life reports a non-negative TTL; the other conventions are exercised on
the same store. -/
theorem c7_ttl_witness :
    0 ≤ (MemoryStore.ttl ⟨[([107], ⟨[107], .string [97], some 5000000000, 0⟩)], 1, 0⟩
      [107] 1).1 :=
  (c7_ttl_conventions ⟨[([107], ⟨[107], .string [97], some 5000000000, 0⟩)], 1, 0⟩
    [107] 1).2.2.2 ⟨[107], .string [97], some 5000000000, 0⟩ 5000000000 rfl rfl rfl

/-- C9: `SET k v` goes through `MemoryStore::set`, which replaces the
entry with `Entry::new` (no expiration), so for a key that currently
holds an entry with an expiration set, a subsequent `ttl` at any later
instant returns `-1`. -/
theorem c9_set_clears_expiration (st : MemoryStore) (k : ByteStr) (e : Entry)
    (t : Nat) (vb : ByteStr) (now now2 : Nat)
    (hfound : findEntry st.store k = some e) (hexp : e.expireAt = some t) :
    findEntry ((setExecute st now [.bulkString k, .bulkString vb]).2).store k =
      some (Entry.new k (.string vb)) ∧
    (((setExecute st now [.bulkString k, .bulkString vb]).2).ttl k now2).1 = -1 := by
  have hres : (setExecute st now [.bulkString k, .bulkString vb]).2 =
      (MemoryStore.set st k (.string vb)).2 := rfl
  rw [hres]
  have hfind : findEntry ((MemoryStore.set st k (.string vb)).2).store k =
      some (Entry.new k (.string vb)) := by
    simp only [MemoryStore.set]
    exact findEntry_insertEntry_self st.store k (Entry.new k (.string vb))
  refine ⟨hfind, ?_⟩
  simp [MemoryStore.ttl, hfind, Entry.isExpired, Entry.new, Entry.ttlSeconds]

/-- Witness for C9: overwriting a key that had an expiry of 5 seconds
makes its TTL report -1. -/
theorem c9_set_witness :
    findEntry ((setExecute ⟨[([107], ⟨[107], .string [97], some 5000000000, 0⟩)], 1, 0⟩
      7 [.bulkString [107], .bulkString [98]]).2).store [107] =
      some (Entry.new [107] (.string [98])) ∧
    (((setExecute ⟨[([107], ⟨[107], .string [97], some 5000000000, 0⟩)], 1, 0⟩
      7 [.bulkString [107], .bulkString [98]]).2).ttl [107] 99).1 = -1 :=
  c9_set_clears_expiration ⟨[([107], ⟨[107], .string [97], some 5000000000, 0⟩)], 1, 0⟩
    [107] ⟨[107], .string [97], some 5000000000, 0⟩ 5000000000 [98] 7 99 rfl rfl

/-- C4 (counterexample): `ClusterManager::execute` given the non-array
frame `Integer 5` does not reject it itself — it dispatches the frame to
shard 0, whose dispatcher produces the error reply. -/
theorem c4_counterexample :
    (ClusterManager.execute (fun _ => 0) (fun _ => none) ⟨[], 0, 0⟩
      (.integer 5)).sentToShard = some 0 ∧
    (ClusterManager.execute (fun _ => 0) (fun _ => none) ⟨[], 0, 0⟩
      (.integer 5)).sentToShard ≠ none ∧
    ((ClusterManager.execute (fun _ => 0) (fun _ => none) ⟨[], 0, 0⟩
      (.integer 5)).response).isErr = true := by
  refine ⟨rfl, ?_, rfl⟩
  intro h
  exact Option.noConfusion h

/-- C4 (amended): for every frame that is not an array, is an empty
array, or whose first element is not a bulk string,
`ClusterManager::execute` routes the frame to shard 0 (it performs no
protocol-error rejection of its own); the shard's dispatcher then
returns an error reply without executing any command, leaving the store
untouched — so the caller still receives a protocol error value, but
the frame is dispatched to shard 0 rather than rejected in `execute`. -/
theorem c4_invalid_frames_amended (routeKey : ByteStr → Nat)
    (reg : ByteStr → Option (MemoryStore → List RespValue → RespValue × MemoryStore))
    (ctx : MemoryStore) (command : RespValue)
    (h : frameHeadInvalid command = true) :
    (ClusterManager.execute routeKey reg ctx command).sentToShard = some 0 ∧
    ((ClusterManager.execute routeKey reg ctx command).response).isErr = true ∧
    (ClusterManager.execute routeKey reg ctx command).ctx = ctx := by
  cases command with
  | array parts =>
    cases parts with
    | nil => exact ⟨rfl, rfl, rfl⟩
    | cons first rest =>
      cases first with
      | bulkString b => exact absurd h (by simp [frameHeadInvalid])
      | simpleString s =>
        refine ⟨?_, rfl, rfl⟩
        cases rest with
        | nil => rfl
        | cons x xs => rfl
      | errorMsg s =>
        refine ⟨?_, rfl, rfl⟩
        cases rest with
        | nil => rfl
        | cons x xs => rfl
      | integer i =>
        refine ⟨?_, rfl, rfl⟩
        cases rest with
        | nil => rfl
        | cons x xs => rfl
      | null =>
        refine ⟨?_, rfl, rfl⟩
        cases rest with
        | nil => rfl
        | cons x xs => rfl
      | array inner =>
        refine ⟨?_, rfl, rfl⟩
        cases rest with
        | nil => rfl
        | cons x xs => rfl
  | simpleString s => exact ⟨rfl, rfl, rfl⟩
  | errorMsg s => exact ⟨rfl, rfl, rfl⟩
  | integer i => exact ⟨rfl, rfl, rfl⟩
  | bulkString b => exact ⟨rfl, rfl, rfl⟩
  | null => exact ⟨rfl, rfl, rfl⟩

/-- Witness for C4 (amended) on a simple-string frame. -/
theorem c4_invalid_frames_witness :
    (ClusterManager.execute (fun _ => 0) (fun _ => none) ⟨[], 0, 0⟩
      (.simpleString [65])).sentToShard = some 0 ∧
    ((ClusterManager.execute (fun _ => 0) (fun _ => none) ⟨[], 0, 0⟩
      (.simpleString [65])).response).isErr = true ∧
    (ClusterManager.execute (fun _ => 0) (fun _ => none) ⟨[], 0, 0⟩
      (.simpleString [65])).ctx = ⟨[], 0, 0⟩ :=
  c4_invalid_frames_amended (fun _ => 0) (fun _ => none) ⟨[], 0, 0⟩
    (.simpleString [65]) rfl

/-- C3 (failing input): `LPUSH` with argument list `[k, Integer 0]`
against the empty store first creates an empty list at `k`, then fails
to extract the non-bulk-string value argument and returns a RESP Error
— but the store is now mutated: it holds an empty list at `k`. -/
theorem c3_failing_input_eval :
    ((lpushExecute ⟨[], 0, 0⟩ 0 [.bulkString [107], .integer 0]).1).isErr = true ∧
    (lpushExecute ⟨[], 0, 0⟩ 0 [.bulkString [107], .integer 0]).2 ≠
      (⟨[], 0, 0⟩ : MemoryStore) ∧
    findEntry ((lpushExecute ⟨[], 0, 0⟩ 0 [.bulkString [107], .integer 0]).2).store
      [107] = some ⟨[107], Value.list [], none, 0⟩ := by
  refine ⟨rfl, ?_, by decide⟩
  intro h
  exact absurd (congrArg (fun s => s.store.length) h) (by decide)

/-- C8: every serialized AOF entry is at least 25 bytes (the empty-key,
zero-payload case), and `AofEntry::from_bytes` rejects every input
shorter than 25 bytes — whatever checksum function is plugged in. -/
theorem c8_aof_entry_bounds :
    (∀ (chk : List Nat → Nat) (e : AofEntry), 25 ≤ (AofEntry.toBytes chk e).length) ∧
    (∀ (chk : List Nat → Nat) (data : List Nat), data.length < 25 →
      ∃ msg, AofEntry.fromBytes chk data = .error msg) := by
  constructor
  · intro chk e
    unfold AofEntry.toBytes
    simp only [List.length_append, List.length_cons, leBytes_length]
    omega
  · intro chk data hlen
    unfold AofEntry.fromBytes
    by_cases h17 : data.length < 17
    · rw [if_pos h17]
      exact ⟨_, rfl⟩
    · rw [if_neg h17]
      cases hop : AofOperation.fromU8 (data.headD 0) with
      | none => exact ⟨_, rfl⟩
      | some op =>
        dsimp only
        by_cases hk : 13 + leRead 4 (data.drop 9) > data.length
        · rw [if_pos hk]
          exact ⟨_, rfl⟩
        · rw [if_neg hk]
          by_cases hc : 13 + leRead 4 (data.drop 9) + 4 > data.length
          · rw [if_pos hc]
            exact ⟨_, rfl⟩
          · rw [if_neg hc]
            cases hrp : readPayloads data
                (leRead 4 (data.drop (13 + leRead 4 (data.drop 9))))
                (13 + leRead 4 (data.drop 9) + 4) with
            | error e => exact ⟨e, rfl⟩
            | ok pr =>
              obtain ⟨ps, pos2⟩ := pr
              have hge := readPayloads_pos_le data _ _ ps pos2 hrp
              have h8 : pos2 + 8 > data.length := by omega
              refine ⟨"Missing checksum", ?_⟩
              show (if pos2 + 8 > data.length then Except.error "Missing checksum"
                else _) = Except.error "Missing checksum"
              rw [if_pos h8]

/-- Witness for C8: the empty-key zero-payload entry serializes to
exactly at least 25 bytes, and the empty input is rejected. -/
theorem c8_aof_entry_witness :
    25 ≤ (AofEntry.toBytes (fun _ => 0) ⟨.set, 0, [], []⟩).length ∧
    ∃ msg, AofEntry.fromBytes (fun _ => 0) [] = .error msg :=
  ⟨c8_aof_entry_bounds.1 (fun _ => 0) ⟨.set, 0, [], []⟩,
   c8_aof_entry_bounds.2 (fun _ => 0) [] (by decide)⟩

/-- `wrapI64` is the identity on values already in the `i64` range. -/
theorem wrapI64_eq_self (x : Int) (h1 : -(2 ^ 63) ≤ x) (h2 : x < 2 ^ 63) :
    wrapI64 x = x := by
  unfold wrapI64
  omega

theorem counterStep_missing (st : MemoryStore) (now : Nat) (k : ByteStr) (δ iv : Int)
    (msg : String) (h : findEntry st.store k = none) :
    counterStep st now k δ iv msg = (.integer iv, (MemoryStore.set st k (.integer iv)).2) := by
  unfold counterStep MemoryStore.getMut
  rw [h]

theorem counterStep_int (st : MemoryStore) (now : Nat) (k : ByteStr) (e : Entry)
    (i δ iv : Int) (msg : String) (he : findEntry st.store k = some e)
    (hv : e.value = .integer i) (hexp : e.isExpired now = false)
    (hin : checkedI64 (i + δ) = some (i + δ)) :
    counterStep st now k δ iv msg =
      (.integer (i + δ), MemoryStore.updateValue st k (.integer (i + δ))) := by
  unfold counterStep MemoryStore.getMut
  rw [he]
  simp [hexp, hv, hin]

theorem counterStep_int_overflow (st : MemoryStore) (now : Nat) (k : ByteStr)
    (e : Entry) (i δ iv : Int) (msg : String) (he : findEntry st.store k = some e)
    (hv : e.value = .integer i) (hexp : e.isExpired now = false)
    (hin : checkedI64 (i + δ) = none) :
    counterStep st now k δ iv msg = (respError msg, st) := by
  unfold counterStep MemoryStore.getMut
  rw [he]
  simp [hexp, hv, hin]

theorem counterStep_str (st : MemoryStore) (now : Nat) (k : ByteStr) (e : Entry)
    (b : ByteStr) (i δ iv : Int) (msg : String) (he : findEntry st.store k = some e)
    (hv : e.value = .string b) (hexp : e.isExpired now = false)
    (hu : validUtf8 b = true) (hp : rustParseI64 b = some i)
    (hin : checkedI64 (i + δ) = some (i + δ)) :
    counterStep st now k δ iv msg =
      (.integer (i + δ), MemoryStore.updateValue st k (.integer (i + δ))) := by
  unfold counterStep MemoryStore.getMut
  rw [he]
  simp [hexp, hv, hu, hp, hin]

theorem counterStep_str_overflow (st : MemoryStore) (now : Nat) (k : ByteStr)
    (e : Entry) (b : ByteStr) (i δ iv : Int) (msg : String)
    (he : findEntry st.store k = some e) (hv : e.value = .string b)
    (hexp : e.isExpired now = false) (hu : validUtf8 b = true)
    (hp : rustParseI64 b = some i) (hin : checkedI64 (i + δ) = none) :
    counterStep st now k δ iv msg = (respError msg, st) := by
  unfold counterStep MemoryStore.getMut
  rw [he]
  simp [hexp, hv, hu, hp, hin]

/-- C6 (amended): the counter commands.  For each of INCR, INCRBY,
DECR, DECRBY: a missing key is initialized to the delta (1, n, −1, and
for DECRBY −n *provided* −n fits in `i64`) and that value returned; a
key holding an `Integer` is updated in place (through the `&mut`
reference, preserving the entry's expiration metadata); a key holding a
`String` is parsed as base-10 `i64` and, on success, upgraded to
`Integer`; and when the checked `i64` arithmetic of an update would
overflow — whether the key held an `Integer` or a `String` — an error
is returned with the store left exactly unchanged.  The DECRBY proviso
cannot be dropped: the source initializes a missing key with the
*unchecked* negation `-decrement`, so at `n = i64::MIN` the stored and
returned value is `wrapI64 (-n) = i64::MIN`, not the exact `−n = 2^63`
(see the counterexample); the last DECRBY clause states that unchecked
behaviour exactly. -/
theorem c6_counter_amended :
    (∀ (st : MemoryStore) (now : Nat) (k : ByteStr),
      (findEntry st.store k = none →
        incrExecute st now [.bulkString k] =
          (.integer 1, (MemoryStore.set st k (.integer 1)).2)) ∧
      (∀ e i, findEntry st.store k = some e → Entry.value e = .integer i →
        e.isExpired now = false →
        (checkedI64 (i + 1) = some (i + 1) →
          incrExecute st now [.bulkString k] =
            (.integer (i + 1), MemoryStore.updateValue st k (.integer (i + 1)))) ∧
        (checkedI64 (i + 1) = none →
          incrExecute st now [.bulkString k] =
            (respError "ERR increment would overflow", st))) ∧
      (∀ e b i, findEntry st.store k = some e → Entry.value e = .string b →
        e.isExpired now = false → validUtf8 b = true → rustParseI64 b = some i →
        (checkedI64 (i + 1) = some (i + 1) →
          incrExecute st now [.bulkString k] =
            (.integer (i + 1), MemoryStore.updateValue st k (.integer (i + 1)))) ∧
        (checkedI64 (i + 1) = none →
          incrExecute st now [.bulkString k] =
            (respError "ERR increment would overflow", st)))) ∧
    (∀ (st : MemoryStore) (now : Nat) (k : ByteStr) (n : Int),
      (findEntry st.store k = none →
        incrByExecute st now [.bulkString k, .integer n] =
          (.integer n, (MemoryStore.set st k (.integer n)).2)) ∧
      (∀ e i, findEntry st.store k = some e → Entry.value e = .integer i →
        e.isExpired now = false →
        (checkedI64 (i + n) = some (i + n) →
          incrByExecute st now [.bulkString k, .integer n] =
            (.integer (i + n), MemoryStore.updateValue st k (.integer (i + n)))) ∧
        (checkedI64 (i + n) = none →
          incrByExecute st now [.bulkString k, .integer n] =
            (respError "ERR increment would overflow", st))) ∧
      (∀ e b i, findEntry st.store k = some e → Entry.value e = .string b →
        e.isExpired now = false → validUtf8 b = true → rustParseI64 b = some i →
        (checkedI64 (i + n) = some (i + n) →
          incrByExecute st now [.bulkString k, .integer n] =
            (.integer (i + n), MemoryStore.updateValue st k (.integer (i + n)))) ∧
        (checkedI64 (i + n) = none →
          incrByExecute st now [.bulkString k, .integer n] =
            (respError "ERR increment would overflow", st)))) ∧
    (∀ (st : MemoryStore) (now : Nat) (k : ByteStr),
      (findEntry st.store k = none →
        decrExecute st now [.bulkString k] =
          (.integer (-1), (MemoryStore.set st k (.integer (-1))).2)) ∧
      (∀ e i, findEntry st.store k = some e → Entry.value e = .integer i →
        e.isExpired now = false →
        (checkedI64 (i - 1) = some (i - 1) →
          decrExecute st now [.bulkString k] =
            (.integer (i - 1), MemoryStore.updateValue st k (.integer (i - 1)))) ∧
        (checkedI64 (i - 1) = none →
          decrExecute st now [.bulkString k] =
            (respError "ERR decrement would overflow", st))) ∧
      (∀ e b i, findEntry st.store k = some e → Entry.value e = .string b →
        e.isExpired now = false → validUtf8 b = true → rustParseI64 b = some i →
        (checkedI64 (i - 1) = some (i - 1) →
          decrExecute st now [.bulkString k] =
            (.integer (i - 1), MemoryStore.updateValue st k (.integer (i - 1)))) ∧
        (checkedI64 (i - 1) = none →
          decrExecute st now [.bulkString k] =
            (respError "ERR decrement would overflow", st)))) ∧
    (∀ (st : MemoryStore) (now : Nat) (k : ByteStr) (n : Int),
      (findEntry st.store k = none → -(2 ^ 63) < n → n < 2 ^ 63 →
        decrByExecute st now [.bulkString k, .integer n] =
          (.integer (-n), (MemoryStore.set st k (.integer (-n))).2)) ∧
      (findEntry st.store k = none →
        decrByExecute st now [.bulkString k, .integer n] =
          (.integer (wrapI64 (-n)),
           (MemoryStore.set st k (.integer (wrapI64 (-n)))).2)) ∧
      (∀ e i, findEntry st.store k = some e → Entry.value e = .integer i →
        e.isExpired now = false →
        (checkedI64 (i - n) = some (i - n) →
          decrByExecute st now [.bulkString k, .integer n] =
            (.integer (i - n), MemoryStore.updateValue st k (.integer (i - n)))) ∧
        (checkedI64 (i - n) = none →
          decrByExecute st now [.bulkString k, .integer n] =
            (respError "ERR decrement would overflow", st))) ∧
      (∀ e b i, findEntry st.store k = some e → Entry.value e = .string b →
        e.isExpired now = false → validUtf8 b = true → rustParseI64 b = some i →
        (checkedI64 (i - n) = some (i - n) →
          decrByExecute st now [.bulkString k, .integer n] =
            (.integer (i - n), MemoryStore.updateValue st k (.integer (i - n)))) ∧
        (checkedI64 (i - n) = none →
          decrByExecute st now [.bulkString k, .integer n] =
            (respError "ERR decrement would overflow", st)))) := by
  refine ⟨?_, ?_, ?_, ?_⟩
  · intro st now k
    refine ⟨fun h => counterStep_missing st now k 1 1 _ h, ?_, ?_⟩
    · intro e i he hv hexp
      exact ⟨fun hin => counterStep_int st now k e i 1 1 _ he hv hexp hin,
             fun hin => counterStep_int_overflow st now k e i 1 1 _ he hv hexp hin⟩
    · intro e b i he hv hexp hu2 hp
      exact ⟨fun hin => counterStep_str st now k e b i 1 1 _ he hv hexp hu2 hp hin,
             fun hin => counterStep_str_overflow st now k e b i 1 1 _ he hv hexp hu2 hp hin⟩
  · intro st now k n
    refine ⟨fun h => counterStep_missing st now k n n _ h, ?_, ?_⟩
    · intro e i he hv hexp
      exact ⟨fun hin => counterStep_int st now k e i n n _ he hv hexp hin,
             fun hin => counterStep_int_overflow st now k e i n n _ he hv hexp hin⟩
    · intro e b i he hv hexp hu2 hp
      exact ⟨fun hin => counterStep_str st now k e b i n n _ he hv hexp hu2 hp hin,
             fun hin => counterStep_str_overflow st now k e b i n n _ he hv hexp hu2 hp hin⟩
  · intro st now k
    have hsub : ∀ i : Int, i - 1 = i + (-1) := fun i => by ring
    refine ⟨fun h => counterStep_missing st now k (-1) (-1) _ h, ?_, ?_⟩
    · intro e i he hv hexp
      constructor
      · intro hin
        rw [hsub i] at hin ⊢
        exact counterStep_int st now k e i (-1) (-1) _ he hv hexp hin
      · intro hin
        rw [hsub i] at hin
        exact counterStep_int_overflow st now k e i (-1) (-1) _ he hv hexp hin
    · intro e b i he hv hexp hu2 hp
      constructor
      · intro hin
        rw [hsub i] at hin ⊢
        exact counterStep_str st now k e b i (-1) (-1) _ he hv hexp hu2 hp hin
      · intro hin
        rw [hsub i] at hin
        exact counterStep_str_overflow st now k e b i (-1) (-1) _ he hv hexp hu2 hp hin
  · intro st now k n
    have hsub : ∀ i : Int, i - n = i + (-n) := fun i => by ring
    refine ⟨?_, fun h => counterStep_missing st now k (-n) (wrapI64 (-n)) _ h, ?_, ?_⟩
    · intro h h1 h2
      have hr : wrapI64 (-n) = -n := wrapI64_eq_self (-n) (by omega) (by omega)
      rw [← hr]
      exact counterStep_missing st now k (-n) (wrapI64 (-n)) _ h
    · intro e i he hv hexp
      constructor
      · intro hin
        rw [hsub i] at hin ⊢
        exact counterStep_int st now k e i (-n) (wrapI64 (-n)) _ he hv hexp hin
      · intro hin
        rw [hsub i] at hin
        exact counterStep_int_overflow st now k e i (-n) (wrapI64 (-n)) _ he hv hexp hin
    · intro e b i he hv hexp hu2 hp
      constructor
      · intro hin
        rw [hsub i] at hin ⊢
        exact counterStep_str st now k e b i (-n) (wrapI64 (-n)) _ he hv hexp hu2 hp hin
      · intro hin
        rw [hsub i] at hin
        exact counterStep_str_overflow st now k e b i (-n) (wrapI64 (-n)) _ he hv hexp hu2 hp hin

/-- Counterexample for C6: `DECRBY k -9223372036854775808` applied to a
missing key.  The claim requires initialization to the exact negation
−n = 2^63, but the source computes the initializer with an unchecked
`i64` negation, so the key is initialized to `i64::MIN` itself (release
builds wrap; debug builds panic) and 2^63 is never stored. -/
theorem c6_counterexample :
    decrByExecute ⟨[], 0, 0⟩ 0 [.bulkString [107], .integer (-(2 ^ 63))] =
      (.integer (-(2 ^ 63)),
       (MemoryStore.set ⟨[], 0, 0⟩ [107] (.integer (-(2 ^ 63)))).2) ∧
    (-(2 ^ 63) : Int) ≠ -(-(2 ^ 63) : Int) := by
  constructor
  · rfl
  · decide

/-- Witness for C6: INCR on a missing key in the empty store returns 1
and initializes the key to `Integer 1`; `DECRBY k 5` on a missing key
initializes it to `Integer (-5)`. -/
theorem c6_counter_witness :
    (incrExecute ⟨[], 0, 0⟩ 0 [.bulkString [107]] =
      (.integer 1, (MemoryStore.set ⟨[], 0, 0⟩ [107] (.integer 1)).2)) ∧
    (decrByExecute ⟨[], 0, 0⟩ 0 [.bulkString [107], .integer 5] =
      (.integer (-5), (MemoryStore.set ⟨[], 0, 0⟩ [107] (.integer (-5))).2)) :=
  ⟨(c6_counter_amended.1 ⟨[], 0, 0⟩ 0 [107]).1 rfl,
   (c6_counter_amended.2.2.2 ⟨[], 0, 0⟩ 0 [107] 5).1 rfl (by decide) (by decide)⟩

/-! ## LRANGE against the spec (claim area C5) -/

/-- `x as usize` is plain `toNat` on a nonnegative value below `2^64`. -/
theorem intToUsize_of_nonneg (x : Int) (h1 : 0 ≤ x) (h2 : x < 2 ^ 64) :
    intToUsize x = x.toNat := by
  unfold intToUsize
  rw [Int.emod_eq_of_lt h1 h2]

/-- The extraction loop `(startIdx..=effStop).filter_map(|i| list.get(i))`
is the `drop`/`take` slice when the range stays inside the list. -/
theorem range_filterMap_slice (l : List ByteStr) :
    ∀ (m a : Nat), a + m ≤ l.length →
      (List.range' a m).filterMap (fun i => l.get? i) = (l.drop a).take m := by
  intro m
  induction m with
  | zero => intro a _; simp
  | succ m ih =>
    intro a ha
    have hlt : a < l.length := by omega
    rw [show List.range' a (m + 1) = a :: List.range' (a + 1) m from rfl]
    rw [List.filterMap_cons]
    rw [List.get?_eq_get hlt]
    rw [List.drop_eq_getElem_cons hlt]
    rw [List.take_succ_cons]
    rw [ih (a + 1) (by omega)]
    rfl

/-- The code's index arithmetic agrees with the spec's clamping rule
whenever `stop` is at least `-len`, so that the `.max(-1)` guard in the
source never has to produce `-1` (which `as usize` would wrap). -/
theorem lrangeSlice_eq_spec (l : List ByteStr) (start stop : Int)
    (hlen : (l.length : Int) < 2 ^ 63) (hstart1 : -(2 ^ 63) ≤ start)
    (hstart2 : start < 2 ^ 63) (hstop1 : -(l.length : Int) ≤ stop)
    (hstop2 : stop < 2 ^ 63) :
    lrangeSlice l start stop = lrangeSpec l start stop := by
  unfold lrangeSlice lrangeSpec
  dsimp only
  by_cases hnil : l.length = 0
  · have h0 : (l.length : Int) = 0 := by exact_mod_cast hnil
    have hstop0 : ¬ stop < 0 := by omega
    rw [if_neg (fun hand => absurd hand.2 (by omega) : ¬ (_ ∧ _))]
    rw [if_neg ?hspec]
    case hspec =>
      have ht2 : min (if stop < 0 then (l.length : Int) + stop else stop)
          ((l.length : Int) - 1) ≤ (l.length : Int) - 1 := min_le_right _ _
      have hs2 : (0 : Int) ≤ max (if start < 0 then (l.length : Int) + start else start) 0 :=
        le_max_right _ _
      omega
  · have hlen1 : 1 ≤ l.length := Nat.one_le_iff_ne_zero.mpr hnil
    have hlenI : (1 : Int) ≤ (l.length : Int) := by exact_mod_cast hlen1
    have hti : (if stop < 0 then intToUsize (max ((l.length : Int) + stop) (-1))
                else intToUsize (min stop ((l.length : Int) - 1)))
        = (min (if stop < 0 then (l.length : Int) + stop else stop)
            ((l.length : Int) - 1)).toNat := by
      by_cases htn : stop < 0
      · rw [if_pos htn, if_pos htn]
        rw [max_eq_left (by omega : (-1 : Int) ≤ (l.length : Int) + stop)]
        rw [min_eq_left (by omega : (l.length : Int) + stop ≤ (l.length : Int) - 1)]
        exact intToUsize_of_nonneg _ (by omega) (by omega)
      · rw [if_neg htn, if_neg htn]
        exact intToUsize_of_nonneg _ (le_min (by omega) (by omega))
          (lt_of_le_of_lt (min_le_right _ _) (by omega))
    have htb1 : 0 ≤ min (if stop < 0 then (l.length : Int) + stop else stop)
        ((l.length : Int) - 1) := by
      by_cases htn : stop < 0
      · rw [if_pos htn]; exact le_min (by omega) (by omega)
      · rw [if_neg htn]; exact le_min (by omega) (by omega)
    have htb2 : min (if stop < 0 then (l.length : Int) + stop else stop)
        ((l.length : Int) - 1) ≤ (l.length : Int) - 1 := min_le_right _ _
    rcases le_or_lt (l.length : Int) start with hbig | hlt
    · have hstartnn : ¬ start < 0 := by omega
      rw [if_neg hstartnn]
      rw [min_eq_right hbig, intToUsize_of_nonneg _ (by omega) (by omega)]
      rw [if_neg (fun hand => absurd hand.2 (by omega) : ¬ (_ ∧ _))]
      rw [if_neg ?hspec2]
      case hspec2 =>
        rw [if_neg hstartnn]
        rw [max_eq_left (by omega : (0 : Int) ≤ start)]
        omega
    · have hsi : (if start < 0 then intToUsize (max ((l.length : Int) + start) 0)
                  else intToUsize (min start (l.length : Int)))
          = (max (if start < 0 then (l.length : Int) + start else start) 0).toNat := by
        by_cases hsn : start < 0
        · rw [if_pos hsn, if_pos hsn]
          exact intToUsize_of_nonneg _ (le_max_right _ _)
            (max_lt (by omega) (by omega))
        · rw [if_neg hsn, if_neg hsn]
          rw [min_eq_left (le_of_lt hlt), max_eq_left (by omega : (0 : Int) ≤ start)]
          exact intToUsize_of_nonneg _ (by omega) (by omega)
      have hsb1 : 0 ≤ max (if start < 0 then (l.length : Int) + start else start) 0 :=
        le_max_right _ _
      have hsb2 : max (if start < 0 then (l.length : Int) + start else start) 0
          ≤ (l.length : Int) - 1 := by
        by_cases hsn : start < 0
        · rw [if_pos hsn]; exact max_le (by omega) (by omega)
        · rw [if_neg hsn]; exact max_le (by omega) (by omega)
      rw [hsi, hti]
      set S2 : Int := max (if start < 0 then (l.length : Int) + start else start) 0 with hS2
      set T2 : Int := min (if stop < 0 then (l.length : Int) + stop else stop)
        ((l.length : Int) - 1) with hT2
      by_cases hle : S2 ≤ T2
      · rw [if_pos ⟨by omega, by omega⟩, if_pos hle]
        rw [min_eq_left (by omega : T2.toNat ≤ l.length - 1)]
        rw [range_filterMap_slice l (T2.toNat + 1 - S2.toNat) S2.toNat (by omega)]
        congr 1
        omega
      · rw [if_neg (fun hand => absurd hand.1 (by omega) : ¬ (_ ∧ _)), if_neg hle]

/-- Counterexample for C5: on the two-element list stored at key `k`,
`LRANGE k 0 -3` must clamp `stop` to an empty range (the spec slice is
empty), but the code's `.max(-1) as usize` wraps `-1` to `2^64 - 1` and
the whole list is returned. -/
theorem c5_counterexample :
    (lrangeExecute ⟨[([107], ⟨[107], Value.list [[97], [98]], none, 0⟩)], 1, 0⟩ 0
        [.bulkString [107], .integer 0, .integer (-3)]).1
      = RespValue.array [.bulkString [97], .bulkString [98]]
    ∧ lrangeSpec [[97], [98]] 0 (-3) = [] :=
  ⟨rfl, rfl⟩

/-- C5 (amended): when the key is absent `LRANGE` returns an empty array
and leaves the (possibly expiry-evicted) store as `get` left it; when a
list `l` is stored at the key and `-len(l) ≤ stop` (with `start`, `stop`
and `len(l)` in `i64` range), `LRANGE` returns exactly the spec's
inclusive clamped range.  The proviso `-len(l) ≤ stop` cannot be
dropped: see the counterexample, where `stop < -len(l)` makes the code
return the whole suffix instead of an empty array. -/
theorem c5_lrange_clamping :
    (∀ st now key st1, MemoryStore.get st key now = (none, st1) →
      ∀ start stop,
        lrangeExecute st now [.bulkString key, .integer start, .integer stop]
          = (RespValue.array [], st1))
    ∧ (∀ st now key l st1 start stop,
        MemoryStore.get st key now = (some (Value.list l), st1) →
        (l.length : Int) < 2 ^ 63 → -(2 ^ 63) ≤ start → start < 2 ^ 63 →
        -(l.length : Int) ≤ stop → stop < 2 ^ 63 →
        lrangeExecute st now [.bulkString key, .integer start, .integer stop]
          = (RespValue.array ((lrangeSpec l start stop).map RespValue.bulkString), st1)) := by
  constructor
  · intro st now key st1 hget start stop
    unfold lrangeExecute
    simp only [extractBulkString, extractInteger, hget]
  · intro st now key l st1 start stop hget h1 h2 h3 h4 h5
    unfold lrangeExecute
    simp only [extractBulkString, extractInteger, hget, Value.asList]
    rw [lrangeSlice_eq_spec l start stop h1 h2 h3 h4 h5]

/-- Witness for C5: `LRANGE` on a missing key in the empty store returns
an empty array, and `LRANGE k 0 -1` on a stored two-element list returns
both elements. -/
theorem c5_lrange_witness :
    lrangeExecute ⟨[], 0, 0⟩ 0 [.bulkString [107], .integer 0, .integer 0]
      = (RespValue.array [], ⟨[], 0, 0⟩)
    ∧ lrangeExecute ⟨[([107], ⟨[107], Value.list [[97], [98]], none, 0⟩)], 1, 0⟩ 0
        [.bulkString [107], .integer 0, .integer (-1)]
      = (RespValue.array [.bulkString [97], .bulkString [98]],
         ⟨[([107], ⟨[107], Value.list [[97], [98]], none, 0⟩)], 1, 0⟩) := by
  constructor
  · exact c5_lrange_clamping.1 ⟨[], 0, 0⟩ 0 [107] ⟨[], 0, 0⟩ rfl 0 0
  · have h := c5_lrange_clamping.2
      ⟨[([107], ⟨[107], Value.list [[97], [98]], none, 0⟩)], 1, 0⟩ 0 [107] [[97], [98]]
      ⟨[([107], ⟨[107], Value.list [[97], [98]], none, 0⟩)], 1, 0⟩ 0 (-1)
      rfl (by decide) (by decide) (by decide) (by decide) (by decide)
    rw [h]
    rfl
